import Mathlib

/-!
Shallow embedding of the OpenFst core covered by the specification:
the encode table / encode mapper (encode.h), the delayed complement
operator (complement.h), and the queue-driven visitation engine
(visit.h).  Machine integers of the C++ sources (int, int64, uint32)
are modelled as Int / Nat; the values handled never overflow 32 bits
in any statement below.  Fallible operations return Option.
-/

namespace OpenFst

/-- Label and StateId sentinels (fst.h constants used by the sources). -/
def kNoLabel : Int := -1

def kNoStateId : Int := -1

/-- Encode flags (encode.h). -/
def kEncodeLabels : Nat := 1

def kEncodeWeights : Nat := 2

def kEncodeFlags : Nat := 3

def kEncodeHasISymbols : Nat := 4

def kEncodeHasOSymbols : Nat := 8

/-- Identifies stream data as an encode table (encode.h). -/
def kEncodeMagicNumber : Int := 2129983209

/-- Modelled from the spec: properties.h is not among the sources.  The
property bit constants used by complement.h and encode.h are modelled as
distinct bits; per spec section 7, error flags propagate by OR-composition
with a machine's property bitset, so every property mask below that the
sources apply to a result retains the kError bit. -/
def kError : Nat := 4

def kAcceptor : Nat := 65536

def kIDeterministic : Nat := 262144

def kNoEpsilons : Nat := 8388608

def kILabelSorted : Nat := 268435456

def kUnweighted : Nat := 8589934592

/-- Modelled from the spec: the full property mask (properties.h missing);
it contains every bit used in this development, in particular kError. -/
def kFstProperties : Nat :=
  kError ||| kAcceptor ||| kIDeterministic ||| kNoEpsilons ||| kILabelSorted |||
    kUnweighted

/-- Modelled from the spec: properties preserved when ilabels change
(properties.h missing); retains kError per spec section 7. -/
def kILabelInvariantProperties : Nat := kError ||| kAcceptor ||| kUnweighted

/-- Modelled from the spec: properties preserved when olabels change. -/
def kOLabelInvariantProperties : Nat := kError ||| kAcceptor ||| kUnweighted

/-- Modelled from the spec: properties preserved when weights change. -/
def kWeightInvariantProperties : Nat :=
  kError ||| kAcceptor ||| kIDeterministic ||| kNoEpsilons

/-- Modelled from the spec: properties preserved when a superfinal state
is added. -/
def kAddSuperFinalProperties : Nat := kError ||| kAcceptor ||| kNoEpsilons

/-- Modelled from the spec: properties preserved when a superfinal state
is removed. -/
def kRmSuperFinalProperties : Nat := kError ||| kAcceptor ||| kNoEpsilons

/-- The distinguished weight values of the semiring interface: One, Zero
and the NoWeight failure sentinel (spec section 3).  The weight type
itself stays a parameter, as in the C++ templates. -/
structure WeightVals (W : Type) where
  One : W
  Zero : W
  NoWeight : W

/-- Arc record (fst.h): input label, output label, weight, next state. -/
structure Arc (W : Type) where
  ilabel : Int
  olabel : Int
  weight : W
  nextstate : Int
deriving DecidableEq

/-- EncodeTable::Tuple (encode.h): arc input/output labels and weight. -/
structure Tuple (W : Type) where
  ilabel : Int
  olabel : Int
  weight : W
deriving DecidableEq

/-- The tuple constructed by EncodeTable::Encode and GetLabel: fields not
selected by the encode flags are replaced by the canonical value, 0 for
the output label and One for the weight. -/
def mkTuple {W : Type} (flags : Nat) (one : W) (a : Arc W) : Tuple W :=
  ⟨a.ilabel,
   if flags &&& kEncodeLabels ≠ 0 then a.olabel else 0,
   if flags &&& kEncodeWeights ≠ 0 then a.weight else one⟩

/-- EncodeTable (encode.h): the encode flags, the ordered vector of
owned tuples, and the two optional pre-encoding symbol tables.  The
hash index of the C++ class maps a tuple value to its 1-based position
in the vector; it is represented here by direct search of the vector,
which agrees with the hash under the no-duplicates invariant that
Encode maintains.  The symbol-table type S stays a parameter. -/
structure EncodeTable (W S : Type) where
  flags : Nat
  tuples : List (Tuple W)
  isymbols : Option S
  osymbols : Option S

variable {W S : Type}

/-- EncodeTable::Encode: hash-lookup or append; returns the 1-based label
together with the updated table. -/
def EncodeTable.encode [DecidableEq W] (t : EncodeTable W S) (one : W)
    (a : Arc W) : Int × EncodeTable W S :=
  let tup := mkTuple t.flags one a
  match t.tuples.findIdx? (· = tup) with
  | some i => (Int.ofNat (i + 1), t)
  | none =>
      (Int.ofNat (t.tuples.length + 1), { t with tuples := t.tuples ++ [tup] })

/-- EncodeTable::Decode: bounds-checked vector lookup; none when the key
is out of range. -/
def EncodeTable.decode (t : EncodeTable W S) (key : Int) : Option (Tuple W) :=
  if key < 1 ∨ key > Int.ofNat t.tuples.length then none
  else t.tuples[(key - 1).toNat]?

/-- EncodeTable::Size. -/
def EncodeTable.size (t : EncodeTable W S) : Nat := t.tuples.length

/-- The encode/decode direction of an EncodeMapper (encode.h). -/
inductive EncodeType where
  | ENCODE
  | DECODE
deriving DecidableEq

/-- EncodeMapper (encode.h): flags, direction, shared table and the
sticky error flag. -/
structure EncodeMapper (W S : Type) where
  flags : Nat
  type : EncodeType
  table : EncodeTable W S
  error : Bool

/-- EncodeMapper::operator() (encode.h): maps one arc, returning the new
arc together with the updated mapper (table growth in the encode
direction, error flag in the decode direction). -/
def EncodeMapper.apply [DecidableEq W] (wv : WeightVals W)
    (m : EncodeMapper W S) (arc : Arc W) : Arc W × EncodeMapper W S :=
  match m.type with
  | .ENCODE =>
      if (arc.nextstate = kNoStateId ∧ m.flags &&& kEncodeWeights = 0) ∨
         (arc.nextstate = kNoStateId ∧ m.flags &&& kEncodeWeights ≠ 0 ∧
           arc.weight = wv.Zero) then
        (arc, m)
      else
        let r := m.table.encode wv.One arc
        (⟨r.1,
          if m.flags &&& kEncodeLabels ≠ 0 then r.1 else arc.olabel,
          if m.flags &&& kEncodeWeights ≠ 0 then wv.One else arc.weight,
          arc.nextstate⟩,
         { m with table := r.2 })
  | .DECODE =>
      if arc.nextstate = kNoStateId then (arc, m)
      else if arc.ilabel = 0 then (arc, m)
      else
        let e1 := m.error ||
          (m.flags &&& kEncodeLabels != 0 && arc.ilabel != arc.olabel)
        let e2 := e1 ||
          (m.flags &&& kEncodeWeights != 0 && arc.weight != wv.One)
        match m.table.decode arc.ilabel with
        | none =>
            (⟨kNoLabel, kNoLabel, wv.NoWeight, arc.nextstate⟩,
             { m with error := true })
        | some tup =>
            (⟨tup.ilabel,
              if m.flags &&& kEncodeLabels ≠ 0 then tup.olabel else arc.olabel,
              if m.flags &&& kEncodeWeights ≠ 0 then tup.weight else arc.weight,
              arc.nextstate⟩,
             { m with error := e2 })

/-- One item of a serialized stream (encode.h Write/Read): an integer
written by WriteType, a weight written by Weight::Write, or a symbol
table written by SymbolTable::Write. -/
inductive Tok (W S : Type) where
  | int (n : Int)
  | wt (w : W)
  | sym (t : S)
deriving DecidableEq

/-- ReadType of an integer: consumes one integer item, fails otherwise. -/
def readIntTok : List (Tok W S) → Option (Int × List (Tok W S))
  | .int n :: r => some (n, r)
  | _ => none

/-- Weight::Read: consumes one weight item, fails otherwise. -/
def readWtTok : List (Tok W S) → Option (W × List (Tok W S))
  | .wt w :: r => some (w, r)
  | _ => none

/-- SymbolTable::Read: consumes one symbol-table item, fails otherwise. -/
def readSymTok : List (Tok W S) → Option (S × List (Tok W S))
  | .sym t :: r => some (t, r)
  | _ => none

/-- EncodeTable::Write (encode.h): magic number, flags, tuple count,
then each tuple as ilabel, olabel, weight, then the symbol tables whose
internal flags are set. -/
def EncodeTable.writeTokens (t : EncodeTable W S) : List (Tok W S) :=
  [Tok.int kEncodeMagicNumber, Tok.int (Int.ofNat t.flags),
   Tok.int (Int.ofNat t.tuples.length)] ++
  (t.tuples.map (fun tp => [Tok.int tp.ilabel, Tok.int tp.olabel,
    Tok.wt tp.weight])).flatten ++
  (if t.flags &&& kEncodeHasISymbols ≠ 0 then
    (t.isymbols.map Tok.sym).toList else []) ++
  (if t.flags &&& kEncodeHasOSymbols ≠ 0 then
    (t.osymbols.map Tok.sym).toList else [])

/-- The tuple-reading loop of EncodeTable::Read. -/
def readTuples : Nat → List (Tok W S) → Option (List (Tuple W) × List (Tok W S))
  | 0, s => some ([], s)
  | n + 1, s => do
      let (il, s) ← readIntTok s
      let (ol, s) ← readIntTok s
      let (w, s) ← readWtTok s
      let (rest, s) ← readTuples n s
      some (⟨il, ol, w⟩ :: rest, s)

/-- EncodeTable::Read (encode.h): verifies the magic number (failing the
read on a mismatch), reads flags and the tuple count, reads the tuples,
then the symbol tables whose internal flags are set; the hash index is
reconstructed from the vector, which the list representation makes
implicit. -/
def EncodeTable.readTokens (s : List (Tok W S)) :
    Option (EncodeTable W S) := do
  let (magic, s) ← readIntTok s
  if magic ≠ kEncodeMagicNumber then none
  else do
    let (fl, s) ← readIntTok s
    let flags := fl.toNat
    let (sz, s) ← readIntTok s
    let (tps, s) ← readTuples sz.toNat s
    if flags &&& kEncodeHasISymbols ≠ 0 then do
      let (isy, s) ← readSymTok s
      if flags &&& kEncodeHasOSymbols ≠ 0 then do
        let (osy, _) ← readSymTok s
        some ⟨flags, tps, some isy, some osy⟩
      else some ⟨flags, tps, some isy, none⟩
    else
      if flags &&& kEncodeHasOSymbols ≠ 0 then do
        let (osy, _) ← readSymTok s
        some ⟨flags, tps, none, some osy⟩
      else some ⟨flags, tps, none, none⟩

/-- Well-formedness maintained by SetInputSymbols / SetOutputSymbols
(encode.h): the internal symbol flags track presence of the tables, and
the flag word fits in the uint32 it is stored in. -/
def EncodeTable.WF (t : EncodeTable W S) : Prop :=
  (t.flags &&& kEncodeHasISymbols ≠ 0 ↔ t.isymbols.isSome) ∧
  (t.flags &&& kEncodeHasOSymbols ≠ 0 ↔ t.osymbols.isSome) ∧
  t.flags < 2 ^ 32

/-- EncodeMapper::Properties (encode.h): ORs kError into the output
properties when the error flag is raised, then applies the masks of the
selected flags. -/
def EncodeMapper.Properties (m : EncodeMapper W S) (inprops : Nat) : Nat :=
  let outprops := if m.error then inprops ||| kError else inprops
  let mask := kFstProperties
  let mask :=
    if m.flags &&& kEncodeLabels ≠ 0 then
      mask &&& (kILabelInvariantProperties &&& kOLabelInvariantProperties)
    else mask
  let mask :=
    if m.flags &&& kEncodeWeights ≠ 0 then
      mask &&& (kILabelInvariantProperties &&& kWeightInvariantProperties &&&
        (if m.type = .ENCODE then kAddSuperFinalProperties
         else kRmSuperFinalProperties))
    else mask
  outprops &&& mask

/-- A source Fst as seen through the read-only Fst interface used by
complement.h: a start state (kNoStateId when absent), final weights,
per-state arc lists in iterator order, and the property bitset that
Properties(mask, test) reports.  fst.h is not among the sources; the
property reporting is modelled from the spec (section 3): each queried
bit of props is the true value of that property. -/
structure SrcFst (W : Type) where
  start : Int
  final : Int → W
  arcs : Int → List (Arc W)
  props : Nat

/-- ComplementFst::kRhoLabel (complement.h). -/
def kRhoLabel : Int := -2

/-- Modelled from the spec: ComplementProperties (properties.h, not in
the sources) derives the complement's initial properties; per spec
section 4.2 the result machine is an unweighted epsilon-free
deterministic acceptor and the error bit of the source is copied
through. -/
def ComplementProperties (inprops : Nat) : Nat :=
  (kAcceptor ||| kUnweighted ||| kNoEpsilons ||| kIDeterministic) |||
    (inprops &&& (kError ||| kILabelSorted))

/-- ComplementFstImpl (complement.h): the copied source machine and the
property bitset held by FstImpl (fst.h missing, storage modelled from
the spec's property-bitset description). -/
structure ComplementFstImpl (W : Type) where
  fst : SrcFst W
  props : Nat

/-- ComplementFstImpl::Properties(mask) (complement.h): if the mask
tests kError and the source has the error property, the impl's error
bit is set; the impl then reports its bitset masked.  Returns the
reported value together with the (possibly updated, sticky) impl. -/
def ComplementFstImpl.PropertiesM (impl : ComplementFstImpl W) (mask : Nat) :
    Nat × ComplementFstImpl W :=
  let impl' :=
    if mask &&& kError ≠ 0 ∧ impl.fst.props &&& kError ≠ 0 then
      { impl with props := impl.props ||| kError }
    else impl
  (impl'.props &&& mask, impl')

/-- The precondition mask of the ComplementFst constructor
(complement.h): unweighted, epsilon-free, input-deterministic acceptor. -/
def complementPrecondition : Nat :=
  kUnweighted ||| kNoEpsilons ||| kIDeterministic ||| kAcceptor

/-- The ComplementFst constructor (complement.h): builds the impl, whose
own constructor derives the initial properties from the source's
kILabelSorted query through ComplementProperties, then tests the source
for the precondition properties and sets kError on violation. -/
def mkComplementFst (src : SrcFst W) : ComplementFstImpl W :=
  let impl : ComplementFstImpl W :=
    ⟨src, ComplementProperties (src.props &&& kILabelSorted)⟩
  if src.props &&& complementPrecondition ≠ complementPrecondition then
    { impl with props := impl.props ||| kError }
  else impl

/-- ComplementFstImpl::Start (complement.h): kNoStateId when the error
property is set; otherwise the source start shifted by one, or 0 when
the source has none. -/
def ComplementFstImpl.Start (impl : ComplementFstImpl W) : Int :=
  if (impl.PropertiesM kError).1 ≠ 0 then kNoStateId
  else
    let start := impl.fst.start
    if start ≠ kNoStateId then start + 1 else 0

/-- ComplementFstImpl::Final (complement.h): exchanges final and
non-final states and makes the rho destination state 0 final. -/
def ComplementFstImpl.Final [DecidableEq W] (wv : WeightVals W)
    (impl : ComplementFstImpl W) (s : Int) : W :=
  if s = 0 ∨ impl.fst.final (s - 1) = wv.Zero then wv.One else wv.Zero

/-- ComplementFstImpl::NumArcs (complement.h). -/
def ComplementFstImpl.NumArcs (impl : ComplementFstImpl W) (s : Int) : Nat :=
  if s = 0 then 1 else (impl.fst.arcs (s - 1)).length + 1

/-- The rho self-arc emitted at position 0 of every state
(ArcIterator of ComplementFst, complement.h). -/
def rhoArc (one : W) : Arc W := ⟨kRhoLabel, kRhoLabel, one, 0⟩

/-- ArcIterator of ComplementFst (complement.h): the underlying source
arc iterator is represented by the arc list it ranges over together
with the implicit position pos - 1 (the iterator is advanced only when
pos is positive). -/
structure CompArcIter (W : Type) where
  srcArcs : List (Arc W)
  s : Int
  pos : Nat

/-- The ArcIterator constructor: the source iterator over state s - 1
exists only when s is not 0. -/
def CompArcIter.init (impl : ComplementFstImpl W) (s : Int) : CompArcIter W :=
  ⟨if s ≠ 0 then impl.fst.arcs (s - 1) else [], s, 0⟩

/-- ArcIterator::Done (complement.h). -/
def CompArcIter.done (it : CompArcIter W) : Prop :=
  if it.s ≠ 0 then it.pos > 0 ∧ it.srcArcs.length ≤ it.pos - 1
  else it.pos > 0

instance (it : CompArcIter W) : Decidable it.done := by
  unfold CompArcIter.done; infer_instance

/-- ArcIterator::Value (complement.h): the rho arc at position 0, then
the source arcs with nextstate incremented by one.  None exactly when
the iterator is done. -/
def CompArcIter.value (one : W) (it : CompArcIter W) : Option (Arc W) :=
  if it.pos = 0 then some (rhoArc one)
  else (it.srcArcs[it.pos - 1]?).map
    (fun a => { a with nextstate := a.nextstate + 1 })

/-- ArcIterator::Next (complement.h): advances the underlying iterator
when the position is past the rho arc, and increments the position. -/
def CompArcIter.next (it : CompArcIter W) : CompArcIter W :=
  { it with pos := it.pos + 1 }

/-- The sequence of arcs an ArcIterator yields before Done, collected by
repeated Value/Next with a fuel bound on the number of steps. -/
def CompArcIter.trace (one : W) : Nat → CompArcIter W → List (Arc W)
  | 0, _ => []
  | fuel + 1, it =>
      if it.done then []
      else
        match it.value one with
        | none => []
        | some a => a :: CompArcIter.trace one fuel it.next

/-! visit.h: queue-dependent visitation. -/

/-- Visit colors (visit.h). -/
def kWhiteState : Nat := 1

def kGreyState : Nat := 2

def kBlackState : Nat := 4

/-- Arc iterator done-and-destroyed marker bit (visit.h). -/
def kArcIterDone : Nat := 8

/-- The Fst as consumed by Visit: the start state, the per-state arc
lists in cursor order, the sequence of states the state iterator
yields, the kExpanded property and the NumStates count that
CountStates uses in the expanded case. -/
structure VFst (α : Type) where
  start : Option Nat
  arcs : Nat → List α
  stateSeq : List Nat
  expanded : Bool
  numStates : Nat

/-- The Visitor interface of visit.h; callbacks thread a visitor state
of type V and the bool-returning ones report whether the visit
continues. -/
structure VisitorI (α V : Type) where
  initVisit : V → V
  initState : V → Nat → Nat → Bool × V
  whiteArc : V → Nat → α → Bool × V
  greyArc : V → Nat → α → Bool × V
  blackArc : V → Nat → α → Bool × V
  finishState : V → Nat → V
  finishVisit : V → V

/-- The Queue discipline interface used by Visit (queue.h is an
external collaborator; only these four operations are consumed). -/
structure QueueI (σ : Type) where
  isEmpty : σ → Bool
  head : σ → Nat
  enqueue : σ → Nat → σ
  dequeue : σ → σ

/-- The laws the spec assumes of every queue discipline, through an
abstraction of a queue value to the multiset of queued states: Head
returns a queued state and Dequeue removes it; Enqueue adds one. -/
structure QueueLaws {σ : Type} (Q : QueueI σ) (toMS : σ → Multiset Nat) :
    Prop where
  isEmpty_iff : ∀ q, Q.isEmpty q = true ↔ toMS q = 0
  head_mem : ∀ q, Q.isEmpty q = false → Q.head q ∈ toMS q
  enqueue_ms : ∀ q s, toMS (Q.enqueue q s) = s ::ₘ toMS q
  dequeue_ms : ∀ q, Q.isEmpty q = false →
    toMS (Q.dequeue q) = (toMS q).erase (Q.head q)

/-- The visitor callbacks observed during a visit, in order. -/
inductive VEvent (α : Type) where
  | initVisit
  | initState (s root : Nat)
  | whiteArc (s : Nat) (a : α)
  | greyArc (s : Nat) (a : α)
  | blackArc (s : Nat) (a : α)
  | finishState (s : Nat)
  | finishVisit

/-- Control position inside Visit: about to test the outer for-loop
condition, inside the queue-draining while loop, searching the next
root, or returned. -/
inductive VPhase where
  | rootCheck
  | inner
  | findRoot
  | finished
deriving DecidableEq

/-- The mutable state of Visit (visit.h): state_status, the arc
iterators (each represented by the arcs it has not yet yielded),
the queue, nstates, the visit flag, the visitor state, the current
root, the not-yet-consumed suffix of the state iterator, and the
control position. -/
structure VCfg (α σ V : Type) where
  status : List Nat
  aiters : List (Option (List α))
  queue : σ
  nstates : Nat
  visit : Bool
  vstate : V
  root : Nat
  siter : List Nat
  phase : VPhase

/-- The fixed parameters of one Visit call. -/
structure VisitParams (α σ V : Type) where
  fst : VFst α
  vis : VisitorI α V
  q : QueueI σ
  anext : α → Nat
  filter : α → Bool
  accessOnly : Bool

variable {α σ V : Type}

/-- The array growth of visit.h performed when a state id reaches
beyond the known range: resize state_status and arc_iterator, update
nstates. -/
def growCfg (cfg : VCfg α σ V) (n : Nat) : VCfg α σ V :=
  if cfg.status.length < n then
    { cfg with
      nstates := n,
      status := cfg.status ++ List.replicate (n - cfg.status.length) kWhiteState,
      aiters := cfg.aiters ++ List.replicate (n - cfg.aiters.length) none }
  else cfg

/-- aiter->Next() followed by the destroy-as-soon-as-done step
(visit.h): the iterator of state s now holds rest; when that is
exhausted the iterator is destroyed and the ArcIterDone bit set. -/
def advanceIter (cfg : VCfg α σ V) (s : Nat) (rest : List α) : VCfg α σ V :=
  if rest.isEmpty then
    { cfg with
      aiters := cfg.aiters.set s none,
      status := cfg.status.set s (cfg.status.getD s 0 ||| kArcIterDone) }
  else { cfg with aiters := cfg.aiters.set s (some rest) }

/-- The first white state at or after a given index, nstates when
there is none (the root-search for loop of visit.h). -/
def findWhiteFrom (status : List Nat) (nstates : Nat) (start : Nat) : Nat :=
  if start < nstates then
    if status.getD start 0 = kWhiteState then start
    else findWhiteFrom status nstates (start + 1)
  else start
termination_by nstates - start

/-- The body of Visit executed when the head-of-queue state still has
an unfinished arc iterator holding arc a before rest (visit.h): filter
the arc, dispatch on the color of its destination, then advance. -/
def processArc (P : VisitParams α σ V) (cfg : VCfg α σ V) (s : Nat)
    (a : α) (rest : List α) : List (VEvent α) × VCfg α σ V :=
  let ns := P.anext a
  let cfg := growCfg cfg (ns + 1)
  if P.filter a then
    if cfg.status.getD ns 0 = kWhiteState then
      let r := P.vis.whiteArc cfg.vstate s a
      if r.1 = false then
        ([.whiteArc s a],
         { cfg with visit := false, vstate := r.2, phase := .inner })
      else
        let r2 := P.vis.initState r.2 ns cfg.root
        let cfg :=
          { cfg with
            visit := r2.1, vstate := r2.2,
            status := cfg.status.set ns kGreyState,
            queue := P.q.enqueue cfg.queue ns }
        ([.whiteArc s a, .initState ns cfg.root], advanceIter cfg s rest)
    else if cfg.status.getD ns 0 = kBlackState then
      let r := P.vis.blackArc cfg.vstate s a
      ([.blackArc s a],
       advanceIter { cfg with visit := r.1, vstate := r.2 } s rest)
    else
      let r := P.vis.greyArc cfg.vstate s a
      ([.greyArc s a],
       advanceIter { cfg with visit := r.1, vstate := r.2 } s rest)
  else ([], advanceIter cfg s rest)

/-- The lazy arc-iterator creation of Visit (visit.h): an iterator for
the head state is built when none exists, the ArcIterDone bit is clear
and visitation continues. -/
def stepInnerCreate (P : VisitParams α σ V) (cfg : VCfg α σ V) (s : Nat) :
    VCfg α σ V :=
  if (cfg.aiters.getD s none).isNone ∧
     cfg.status.getD s 0 &&& kArcIterDone = 0 ∧ cfg.visit then
    { cfg with aiters := cfg.aiters.set s (some (P.fst.arcs s)) }
  else cfg

/-- The eager arc-iterator destruction of Visit (visit.h): a done
iterator, or any iterator once visitation has stopped, is destroyed
and the ArcIterDone bit set. -/
def stepInnerDestroy (cfg : VCfg α σ V) (s : Nat) : VCfg α σ V :=
  let aiterDone :=
    match cfg.aiters.getD s none with
    | some l => l.isEmpty
    | none => false
  if aiterDone || !cfg.visit then
    { cfg with
      aiters := cfg.aiters.set s none,
      status := cfg.status.set s (cfg.status.getD s 0 ||| kArcIterDone) }
  else cfg

/-- One iteration of the queue-draining while loop of Visit
(visit.h): grow the arrays to the head state if needed, lazily create
its arc iterator, destroy the iterator when done or when visitation
has stopped, and either finish the state or process its current arc. -/
def stepInner (P : VisitParams α σ V) (cfg : VCfg α σ V) (s : Nat) :
    List (VEvent α) × VCfg α σ V :=
  let cfg := stepInnerDestroy (stepInnerCreate P (growCfg cfg (s + 1)) s) s
  if cfg.status.getD s 0 &&& kArcIterDone ≠ 0 then
    ([.finishState s],
     { cfg with
       queue := P.q.dequeue cfg.queue,
       vstate := P.vis.finishState cfg.vstate s,
       status := cfg.status.set s kBlackState,
       phase := .inner })
  else
    match cfg.aiters.getD s none with
    | some (a :: rest) => processArc P cfg s a rest
    | _ =>
        ([],
         { cfg with
           status := cfg.status.set s (cfg.status.getD s 0 ||| kArcIterDone) })

/-- One control step of Visit (visit.h). -/
def visitStep (P : VisitParams α σ V) (cfg : VCfg α σ V) :
    List (VEvent α) × VCfg α σ V :=
  match cfg.phase with
  | .finished => ([], cfg)
  | .rootCheck =>
      if cfg.visit ∧ cfg.root < cfg.nstates then
        let r := P.vis.initState cfg.vstate cfg.root cfg.root
        ([.initState cfg.root cfg.root],
         { cfg with
           visit := r.1, vstate := r.2,
           status := cfg.status.set cfg.root kGreyState,
           queue := P.q.enqueue cfg.queue cfg.root,
           phase := .inner })
      else
        ([.finishVisit],
         { cfg with vstate := P.vis.finishVisit cfg.vstate,
                    phase := .finished })
  | .findRoot =>
      let st := (P.fst.start).getD 0
      let r0 := if cfg.root = st then 0 else cfg.root + 1
      let newRoot := findWhiteFrom cfg.status cfg.nstates r0
      let cfg :=
        if ¬ P.fst.expanded ∧ newRoot = cfg.nstates then
          match cfg.siter.dropWhile (fun x => x ≠ cfg.nstates) with
          | [] => { cfg with siter := [] }
          | _ :: rest =>
              { cfg with
                siter := rest,
                nstates := cfg.nstates + 1,
                status := cfg.status ++ [kWhiteState],
                aiters := cfg.aiters ++ [none] }
        else cfg
      ([], { cfg with root := newRoot, phase := .rootCheck })
  | .inner =>
      if P.q.isEmpty cfg.queue then
        if P.accessOnly then
          ([.finishVisit],
           { cfg with vstate := P.vis.finishVisit cfg.vstate,
                      phase := .finished })
        else ([], { cfg with phase := .findRoot })
      else stepInner P cfg (P.q.head cfg.queue)

/-- The configuration successor, discarding the callbacks observed. -/
def stepC (P : VisitParams α σ V) (cfg : VCfg α σ V) : VCfg α σ V :=
  (visitStep P cfg).2

/-- Configurations reached by Visit from a given one. -/
def VReaches (P : VisitParams α σ V) (cfg0 cfg : VCfg α σ V) : Prop :=
  ∃ n : Nat, (stepC P)^[n] cfg0 = cfg

/-- Runs Visit for at most fuel control steps, collecting the
callbacks; none when the fuel is exhausted before FinishVisit. -/
def runVisitAux (P : VisitParams α σ V) :
    Nat → VCfg α σ V → Option (List (VEvent α) × VCfg α σ V)
  | fuel, cfg =>
    if cfg.phase = .finished then some ([], cfg)
    else
      match fuel with
      | 0 => none
      | f + 1 =>
          let r := visitStep P cfg
          (runVisitAux P f r.2).map (fun p => (r.1 ++ p.1, p.2))

/-- The configuration Visit sets up once a start state exists: arrays
sized by NumStates in the expanded case and by start + 1 otherwise,
everything white, the given (empty) queue, the start as first root. -/
def initVCfg (P : VisitParams α σ V) (q0 : σ) (v1 : V) (st : Nat) :
    VCfg α σ V :=
  let n := if P.fst.expanded then P.fst.numStates else st + 1
  ⟨List.replicate n kWhiteState, List.replicate n none, q0, n, true, v1, st,
   P.fst.stateSeq, .rootCheck⟩

/-- Visit (visit.h): InitVisit, the FinishVisit-only run when there is
no start state, else the full loop from the initial configuration. -/
def visitRun (P : VisitParams α σ V) (q0 : σ) (v0 : V) (fuel : Nat) :
    Option (List (VEvent α) × V) :=
  let v1 := P.vis.initVisit v0
  match P.fst.start with
  | none => some ([.initVisit, .finishVisit], P.vis.finishVisit v1)
  | some st =>
      (runVisitAux P fuel (initVCfg P q0 v1 st)).map
        (fun p => (VEvent.initVisit :: p.1, p.2.vstate))

/-- The states whose visit color is Grey in a configuration. -/
def greySet (cfg : VCfg α σ V) : Finset Nat :=
  (Finset.range cfg.status.length).filter
    (fun s => cfg.status.getD s 0 &&& kGreyState ≠ 0)

/-- The invariant Visit maintains: the queue holds exactly the Grey
states, each once; the arrays track nstates; the root about to be
initialized is still White. -/
def VisitInv (toMS : σ → Multiset Nat) (cfg : VCfg α σ V) : Prop :=
  toMS cfg.queue = (greySet cfg).val ∧
  cfg.status.length = cfg.nstates ∧
  cfg.aiters.length = cfg.nstates ∧
  (cfg.phase = .rootCheck → cfg.root < cfg.nstates →
    cfg.status.getD cfg.root 0 = kWhiteState)

/-- The FIFO queue discipline (head at the front, enqueue at the
back), the discipline fstcopy-style uses. -/
def fifoQueue : QueueI (List Nat) where
  isEmpty q := q.isEmpty
  head q := q.headD 0
  enqueue q s := q ++ [s]
  dequeue q := q.tail

/-- Abstraction of a FIFO queue value to its multiset of states. -/
def fifoToMS (l : List Nat) : Multiset Nat := (l : Multiset Nat)

/-- The mutable output Fst built by CopyVisitor together with the
counters of PartialVisitor: output state count, SetStart value, AddArc
calls, SetFinal calls, and the ninit / nfinish counters. -/
structure PCVState (α W : Type) where
  ofstNumStates : Nat
  ofstStart : Int
  ofstArcs : List (Nat × α)
  ofstFinals : List (Nat × W)
  ninit : Nat
  nfinish : Nat

/-- PartialCopyVisitor (visit.h) with its default grey/black copying:
InitState adds missing output states, increments ninit and allows the
visit while ninit does not exceed maxvisit; arcs are copied on every
color; FinishState copies the final weight and counts. -/
def partialCopyVisitor {W : Type} (maxvisit : Nat) (istart : Int)
    (ifinal : Nat → W) : VisitorI α (PCVState α W) where
  initVisit v :=
    { v with ofstNumStates := 0, ofstStart := istart, ofstArcs := [],
             ofstFinals := [], ninit := 0, nfinish := 0 }
  initState v s _root :=
    let v := { v with ofstNumStates := max v.ofstNumStates (s + 1),
                      ninit := v.ninit + 1 }
    (decide (v.ninit ≤ maxvisit), v)
  whiteArc v s a := (true, { v with ofstArcs := v.ofstArcs ++ [(s, a)] })
  greyArc v s a := (true, { v with ofstArcs := v.ofstArcs ++ [(s, a)] })
  blackArc v s a := (true, { v with ofstArcs := v.ofstArcs ++ [(s, a)] })
  finishState v s :=
    { v with ofstFinals := v.ofstFinals ++ [(s, ifinal s)],
             nfinish := v.nfinish + 1 }
  finishVisit v := v

/-- The 10-state chain acceptor of spec scenario E4: state i has the
single arc (1, 1, One, i + 1) for i < 9, state 9 is final. -/
def chainFst : VFst (Arc Int) where
  start := some 0
  arcs s := if s < 9 then [⟨1, 1, 0, Int.ofNat s + 1⟩] else []
  stateSeq := List.range 10
  expanded := true
  numStates := 10

/-- The final weights of the chain: One (modelled as 0) at state 9,
Zero (modelled as 1) elsewhere. -/
def chainFinal (s : Nat) : Int := if s = 9 then 0 else 1

/-- The Visit parameters of spec scenario E4: the chain, a
PartialCopyVisitor with maxvisit 3, the FIFO queue, the any-arc
filter. -/
def chainParams : VisitParams (Arc Int) (List Nat) (PCVState (Arc Int) Int) where
  fst := chainFst
  vis := partialCopyVisitor 3 0 chainFinal
  q := fifoQueue
  anext a := a.nextstate.toNat
  filter _ := true
  accessOnly := false

/-- An all-zero initial PartialCopyVisitor state. -/
def pcv0 : PCVState (Arc Int) Int := ⟨0, 0, [], [], 0, 0⟩

/-- A visitor that refuses at once: its first InitState returns false.
Used to exercise the early-termination drain of Visit on a concrete
machine. -/
def refusingVisitor : VisitorI (Arc Int) Nat where
  initVisit v := v
  initState v _ _ := (false, v + 1)
  whiteArc v _ _ := (true, v)
  greyArc v _ _ := (true, v)
  blackArc v _ _ := (true, v)
  finishState v _ := v
  finishVisit v := v

/-- A two-state chain with the refusing visitor over the FIFO queue. -/
def refuseParams : VisitParams (Arc Int) (List Nat) Nat where
  fst :=
    { start := some 0
      arcs := fun s => if s = 0 then [⟨1, 1, 0, 1⟩] else []
      stateSeq := [0, 1]
      expanded := true
      numStates := 2 }
  vis := refusingVisitor
  q := fifoQueue
  anext a := a.nextstate.toNat
  filter _ := true
  accessOnly := false

/-! Theorems.  Helper lemmas first, then one theorem per claim (with
its witness or counterexample). -/

lemma encode_spec [DecidableEq W] (t : EncodeTable W S) (one : W) (a : Arc W) :
    ∃ i : Nat, (t.encode one a).1 = Int.ofNat (i + 1) ∧
      (t.encode one a).2.tuples[i]? = some (mkTuple t.flags one a) ∧
      (t.encode one a).2.flags = t.flags := by
  unfold EncodeTable.encode
  cases h : t.tuples.findIdx? (· = mkTuple t.flags one a) with
  | none =>
      refine ⟨t.tuples.length, ?_, ?_, ?_⟩ <;>
        simp [h, List.getElem?_concat_length]
  | some i =>
      obtain ⟨hlt, hfi⟩ := List.findIdx?_eq_some_iff_findIdx_eq.mp h
      have hp : t.tuples[i] = mkTuple t.flags one a := by
        have hw : List.findIdx (· = mkTuple t.flags one a) t.tuples <
            t.tuples.length := by
          rw [hfi]
          exact hlt
        have := @List.findIdx_getElem _ (· = mkTuple t.flags one a)
          t.tuples hw
        simpa [hfi] using this
      refine ⟨i, ?_, ?_, ?_⟩ <;>
        simp [h, List.getElem?_eq_getElem hlt, hp]

lemma decode_encode [DecidableEq W] (t : EncodeTable W S) (one : W)
    (a : Arc W) :
    (t.encode one a).2.decode (t.encode one a).1 =
      some (mkTuple t.flags one a) := by
  obtain ⟨i, h1, h2, -⟩ := encode_spec t one a
  simp only [Int.ofNat_eq_coe] at h1
  have hi : i < (t.encode one a).2.tuples.length := by
    have := List.getElem?_eq_some_iff.mp h2
    exact this.1
  unfold EncodeTable.decode
  rw [h1]
  have hguard : ¬ (((i + 1 : Nat) : Int) < 1 ∨
      ((i + 1 : Nat) : Int) > Int.ofNat (t.encode one a).2.tuples.length) := by
    simp only [Int.ofNat_eq_coe]
    push_neg
    omega
  rw [if_neg hguard]
  have hidx : (((i + 1 : Nat) : Int) - 1).toNat = i := by omega
  rw [hidx]
  exact h2

lemma encode_key_pos [DecidableEq W] (t : EncodeTable W S) (one : W)
    (a : Arc W) : 1 ≤ (t.encode one a).1 := by
  obtain ⟨i, h1, -, -⟩ := encode_spec t one a
  simp only [Int.ofNat_eq_coe] at h1
  omega

/-- The encode direction of EncodeMapper::operator() on a
non-super-final arc. -/
lemma apply_encode_arc [DecidableEq W] (wv : WeightVals W)
    (m : EncodeMapper W S) (a : Arc W)
    (htype : m.type = .ENCODE) (hns : a.nextstate ≠ kNoStateId) :
    m.apply wv a =
      (⟨(m.table.encode wv.One a).1,
        if m.flags &&& kEncodeLabels ≠ 0 then (m.table.encode wv.One a).1
        else a.olabel,
        if m.flags &&& kEncodeWeights ≠ 0 then wv.One else a.weight,
        a.nextstate⟩,
       { m with table := (m.table.encode wv.One a).2 }) := by
  unfold EncodeMapper.apply
  rw [htype]
  simp [hns]

/-- The decode direction of EncodeMapper::operator() on a
non-super-final, non-epsilon arc whose table lookup succeeds. -/
lemma apply_decode_some [DecidableEq W] (wv : WeightVals W)
    (m : EncodeMapper W S) (a : Arc W)
    (htype : m.type = .DECODE) (hns : a.nextstate ≠ kNoStateId)
    (hil : a.ilabel ≠ 0) (tup : Tuple W)
    (hdec : m.table.decode a.ilabel = some tup) :
    (m.apply wv a).1 =
      ⟨tup.ilabel,
       if m.flags &&& kEncodeLabels ≠ 0 then tup.olabel else a.olabel,
       if m.flags &&& kEncodeWeights ≠ 0 then tup.weight else a.weight,
       a.nextstate⟩ := by
  unfold EncodeMapper.apply
  rw [htype]
  simp [hns, hil, hdec]

/-- C1, first part, in terms of the table alone: Decode of Encode is
exactly the flag-masked tuple. -/
lemma decode_encode_fields [DecidableEq W] (t : EncodeTable W S) (one : W)
    (a : Arc W) :
    ∃ tup : Tuple W,
      (t.encode one a).2.decode (t.encode one a).1 = some tup ∧
      tup.ilabel = a.ilabel ∧
      (t.flags &&& kEncodeLabels ≠ 0 → tup.olabel = a.olabel) ∧
      (t.flags &&& kEncodeWeights ≠ 0 → tup.weight = a.weight) := by
  refine ⟨mkTuple t.flags one a, decode_encode t one a, rfl, ?_, ?_⟩ <;>
    · intro h
      simp [mkTuple, h]

/-- C1 (amended: the mapper-level round trip is asserted for arcs whose
nextstate is not kNoStateId; an encoded super-final arc is passed
through unchanged by the decode direction, not restored).  After
k = Encode(a) the tuple Decode(k) recovers every flag-selected field of
a exactly, and for a non-super-final arc the decode-direction
EncodeMapper built over the shared table, applied to the
encode-direction mapper's output arc, restores the selected fields
while the unselected fields and the nextstate are preserved verbatim:
the round trip returns a itself. -/
theorem c1_encode_decode {W S : Type} [DecidableEq W] (wv : WeightVals W)
    (m : EncodeMapper W S) (a : Arc W)
    (htype : m.type = .ENCODE) (htf : m.table.flags = m.flags) :
    (∃ tup : Tuple W,
       (m.table.encode wv.One a).2.decode (m.table.encode wv.One a).1 =
         some tup ∧
       tup.ilabel = a.ilabel ∧
       (m.flags &&& kEncodeLabels ≠ 0 → tup.olabel = a.olabel) ∧
       (m.flags &&& kEncodeWeights ≠ 0 → tup.weight = a.weight)) ∧
    (a.nextstate ≠ kNoStateId →
      (EncodeMapper.apply wv
        ⟨m.flags, .DECODE, (m.apply wv a).2.table, (m.apply wv a).2.error⟩
        (m.apply wv a).1).1 = a) := by
  constructor
  · have h := decode_encode_fields (S := S) m.table wv.One a
    rw [htf] at h
    exact h
  · intro hns
    rw [apply_encode_arc wv m a htype hns]
    dsimp only
    have hkey := encode_key_pos (S := S) m.table wv.One a
    have hdec := decode_encode (S := S) m.table wv.One a
    have hk0 : (m.table.encode wv.One a).1 ≠ 0 := by omega
    rw [apply_decode_some wv
      ⟨m.flags, .DECODE, (m.table.encode wv.One a).2, m.error⟩
      ⟨(m.table.encode wv.One a).1,
        if m.flags &&& kEncodeLabels ≠ 0 then (m.table.encode wv.One a).1
        else a.olabel,
        if m.flags &&& kEncodeWeights ≠ 0 then wv.One else a.weight,
        a.nextstate⟩
      rfl hns hk0 _ hdec]
    rcases a with ⟨il, ol, w, ns⟩
    simp only [mkTuple, htf]
    by_cases hl : m.flags &&& kEncodeLabels ≠ 0 <;>
      by_cases hw : m.flags &&& kEncodeWeights ≠ 0 <;>
        simp [hl, hw]

/-- Witness for c1_encode_decode at the concrete mapper of scenario E1
(flags LABELS and WEIGHTS, empty table) and the arc (5, 6, 7, 4). -/
theorem c1_encode_decode_witness :
    (∃ tup : Tuple Int,
       ((⟨3, [], none, none⟩ : EncodeTable Int Nat).encode (0 : Int)
           ⟨5, 6, 7, 4⟩).2.decode
         ((⟨3, [], none, none⟩ : EncodeTable Int Nat).encode (0 : Int)
           ⟨5, 6, 7, 4⟩).1 = some tup ∧
       tup.ilabel = 5 ∧
       ((3 : Nat) &&& kEncodeLabels ≠ 0 → tup.olabel = 6) ∧
       ((3 : Nat) &&& kEncodeWeights ≠ 0 → tup.weight = 7)) ∧
    ((4 : Int) ≠ kNoStateId →
      (EncodeMapper.apply (⟨0, 1, 2⟩ : WeightVals Int)
        ⟨3, .DECODE,
         ((⟨3, .ENCODE, ⟨3, [], none, none⟩, false⟩ :
             EncodeMapper Int Nat).apply ⟨0, 1, 2⟩ ⟨5, 6, 7, 4⟩).2.table,
         ((⟨3, .ENCODE, ⟨3, [], none, none⟩, false⟩ :
             EncodeMapper Int Nat).apply ⟨0, 1, 2⟩ ⟨5, 6, 7, 4⟩).2.error⟩
        ((⟨3, .ENCODE, ⟨3, [], none, none⟩, false⟩ :
            EncodeMapper Int Nat).apply ⟨0, 1, 2⟩ ⟨5, 6, 7, 4⟩).1).1 =
      ⟨5, 6, 7, 4⟩) :=
  c1_encode_decode (⟨0, 1, 2⟩ : WeightVals Int)
    ⟨3, .ENCODE, ⟨3, [], none, none⟩, false⟩ ⟨5, 6, 7, 4⟩ rfl rfl

/-- Counterexample to C1 as stated: under flags = WEIGHTS the
super-final arc (5, 5, 7, kNoStateId) with non-Zero weight is encoded
by the encode direction, but the decode direction passes super-final
arcs through unchanged, so neither the ilabel nor the selected weight
field is restored. -/
theorem c1_counterexample :
    let wv : WeightVals Int := ⟨0, 1, 2⟩
    let m : EncodeMapper Int Nat :=
      ⟨kEncodeWeights, .ENCODE, ⟨kEncodeWeights, [], none, none⟩, false⟩
    let a : Arc Int := ⟨5, 5, 7, kNoStateId⟩
    let enc := m.apply wv a
    let dm : EncodeMapper Int Nat := ⟨m.flags, .DECODE, enc.2.table, enc.2.error⟩
    (dm.apply wv enc.1).1.ilabel ≠ a.ilabel ∧
      (dm.apply wv enc.1).1.weight ≠ a.weight := by
  decide

lemma encode_flags_eq [DecidableEq W] (t : EncodeTable W S) (one : W)
    (a : Arc W) : (t.encode one a).2.flags = t.flags := by
  unfold EncodeTable.encode
  cases h : t.tuples.findIdx? (· = mkTuple t.flags one a) <;> simp [h]

lemma encode_prefix [DecidableEq W] (t : EncodeTable W S) (one : W)
    (a : Arc W) :
    ∀ j < t.tuples.length, (t.encode one a).2.tuples[j]? = t.tuples[j]? := by
  intro j hj
  unfold EncodeTable.encode
  cases h : t.tuples.findIdx? (· = mkTuple t.flags one a) with
  | some i => simp [h]
  | none => simp [h, List.getElem?_append_left hj]

lemma mkTuple_eq_iff (flags : Nat) (one : W) (a b : Arc W) :
    mkTuple flags one a = mkTuple flags one b ↔
      (a.ilabel = b.ilabel ∧
       (flags &&& kEncodeLabels ≠ 0 → a.olabel = b.olabel) ∧
       (flags &&& kEncodeWeights ≠ 0 → a.weight = b.weight)) := by
  unfold mkTuple
  by_cases hl : flags &&& kEncodeLabels ≠ 0 <;>
    by_cases hw : flags &&& kEncodeWeights ≠ 0 <;>
      simp [hl, hw, Tuple.mk.injEq, and_assoc]

/-- C2: two arcs encoded into the same EncodeTable receive the same
label exactly when they agree on every field the encode flags select
(the ilabel always; the olabel when LABELS is set; the weight when
WEIGHTS is set). -/
theorem c2_encode_eq_iff {W S : Type} [DecidableEq W] (t : EncodeTable W S)
    (one : W) (a b : Arc W) :
    ((t.encode one a).2.encode one b).1 = (t.encode one a).1 ↔
      (a.ilabel = b.ilabel ∧
       (t.flags &&& kEncodeLabels ≠ 0 → a.olabel = b.olabel) ∧
       (t.flags &&& kEncodeWeights ≠ 0 → a.weight = b.weight)) := by
  rw [← mkTuple_eq_iff t.flags one a b]
  constructor
  · intro hk
    obtain ⟨i, h1, h2, -⟩ := encode_spec t one a
    obtain ⟨j, g1, g2, -⟩ := encode_spec ((t.encode one a).2) one b
    rw [encode_flags_eq t one a] at g2
    have hij : j = i := by
      simp only [Int.ofNat_eq_coe] at h1 g1
      omega
    rw [hij] at g2
    have hi : i < (t.encode one a).2.tuples.length :=
      (List.getElem?_eq_some_iff.mp h2).1
    have hpre := encode_prefix ((t.encode one a).2) one b i hi
    rw [hpre, h2] at g2
    exact Option.some.inj g2
  · intro htup
    have ha :
        t.encode one a =
          (match t.tuples.findIdx? (· = mkTuple t.flags one a) with
           | some i => (Int.ofNat (i + 1), t)
           | none =>
               (Int.ofNat (t.tuples.length + 1),
                { t with tuples := t.tuples ++ [mkTuple t.flags one a] })) :=
      rfl
    cases h : t.tuples.findIdx? (· = mkTuple t.flags one a) with
    | some i =>
        rw [ha, h]
        show ((t.encode one b).1 : Int) = Int.ofNat (i + 1)
        unfold EncodeTable.encode
        rw [← htup]
        simp [h]
    | none =>
        rw [ha, h]
        dsimp only
        unfold EncodeTable.encode
        rw [← htup]
        simp [List.findIdx?_append, h, List.findIdx?_cons]

/-- Witness for c2_encode_eq_iff: two arcs differing only in their
weight, encoded into an empty LABELS-only table, receive the same
label. -/
theorem c2_encode_eq_iff_witness :
    (((⟨kEncodeLabels, [], none, none⟩ : EncodeTable Int Nat).encode
        (0 : Int) ⟨5, 6, 7, 1⟩).2.encode (0 : Int) ⟨5, 6, 9, 2⟩).1 =
      ((⟨kEncodeLabels, [], none, none⟩ : EncodeTable Int Nat).encode
        (0 : Int) ⟨5, 6, 7, 1⟩).1 :=
  (c2_encode_eq_iff ⟨kEncodeLabels, [], none, none⟩ 0 ⟨5, 6, 7, 1⟩
      ⟨5, 6, 9, 2⟩).mpr (by decide)

lemma land_kError_ne_zero {x : Nat} (h : x.testBit 2 = true) :
    x &&& kError ≠ 0 := by
  intro h0
  have hb : (x &&& kError).testBit 2 = true := by
    rw [Nat.testBit_and, h]
    decide
  rw [h0] at hb
  simp at hb

lemma properties_error_kError (m : EncodeMapper W S) (h : m.error = true)
    (inprops : Nat) : m.Properties inprops &&& kError ≠ 0 := by
  unfold EncodeMapper.Properties
  rw [h, if_pos rfl]
  apply land_kError_ne_zero
  rw [Nat.testBit_and, Nat.testBit_or]
  split_ifs <;>
    · rw [show (kError.testBit 2) = true from by decide, Bool.or_true,
        Bool.true_and]
      decide

/-- C6: for a non-super-final, non-epsilon arc handled by a
decode-direction EncodeMapper: a label-encoded arc whose labels differ
raises the error flag; a weight-encoded arc with non-One weight raises
the error flag; a table miss produces the arc
(kNoLabel, kNoLabel, NoWeight, nextstate) and raises the error flag;
and a raised error flag makes every subsequent Properties result carry
kError. -/
theorem c6_decode_error_handling {W S : Type} [DecidableEq W]
    (wv : WeightVals W) (m : EncodeMapper W S) (a : Arc W)
    (htype : m.type = .DECODE) (hns : a.nextstate ≠ kNoStateId)
    (hil : a.ilabel ≠ 0) :
    ((m.flags &&& kEncodeLabels ≠ 0 ∧ a.ilabel ≠ a.olabel) →
       (m.apply wv a).2.error = true) ∧
    ((m.flags &&& kEncodeWeights ≠ 0 ∧ a.weight ≠ wv.One) →
       (m.apply wv a).2.error = true) ∧
    (m.table.decode a.ilabel = none →
       (m.apply wv a).1 = ⟨kNoLabel, kNoLabel, wv.NoWeight, a.nextstate⟩ ∧
       (m.apply wv a).2.error = true) ∧
    (∀ inprops : Nat, (m.apply wv a).2.error = true →
       (m.apply wv a).2.Properties inprops &&& kError ≠ 0) := by
  refine ⟨?_, ?_, ?_, fun inprops herr =>
    properties_error_kError ((m.apply wv a).2) herr inprops⟩ <;>
    · intro h
      unfold EncodeMapper.apply
      rw [htype]
      cases hdec : m.table.decode a.ilabel <;>
        simp_all [bne_iff_ne]

/-- Witness for c6_decode_error_handling: a LABELS-encoded decode
mapper over an empty table, applied to the arc (3, 4, 7, 2): the labels
differ and the lookup of 3 misses, so the error flag is raised, the
error arc is produced and Properties reports kError. -/
theorem c6_decode_error_handling_witness :
    ((kEncodeLabels &&& kEncodeLabels ≠ 0 ∧ (3 : Int) ≠ 4) →
      ((⟨kEncodeLabels, .DECODE, ⟨kEncodeLabels, [], none, none⟩, false⟩ :
          EncodeMapper Int Nat).apply ⟨0, 1, 2⟩ ⟨3, 4, 7, 2⟩).2.error = true) ∧
    ((kEncodeLabels &&& kEncodeWeights ≠ 0 ∧ (7 : Int) ≠ 0) →
      ((⟨kEncodeLabels, .DECODE, ⟨kEncodeLabels, [], none, none⟩, false⟩ :
          EncodeMapper Int Nat).apply ⟨0, 1, 2⟩ ⟨3, 4, 7, 2⟩).2.error = true) ∧
    ((⟨kEncodeLabels, [], none, none⟩ : EncodeTable Int Nat).decode 3 = none →
      ((⟨kEncodeLabels, .DECODE, ⟨kEncodeLabels, [], none, none⟩, false⟩ :
          EncodeMapper Int Nat).apply ⟨0, 1, 2⟩ ⟨3, 4, 7, 2⟩).1 =
        ⟨kNoLabel, kNoLabel, 2, 2⟩ ∧
      ((⟨kEncodeLabels, .DECODE, ⟨kEncodeLabels, [], none, none⟩, false⟩ :
          EncodeMapper Int Nat).apply ⟨0, 1, 2⟩ ⟨3, 4, 7, 2⟩).2.error = true) ∧
    (∀ inprops : Nat,
      ((⟨kEncodeLabels, .DECODE, ⟨kEncodeLabels, [], none, none⟩, false⟩ :
          EncodeMapper Int Nat).apply ⟨0, 1, 2⟩ ⟨3, 4, 7, 2⟩).2.error = true →
      ((⟨kEncodeLabels, .DECODE, ⟨kEncodeLabels, [], none, none⟩, false⟩ :
          EncodeMapper Int Nat).apply ⟨0, 1, 2⟩
            ⟨3, 4, 7, 2⟩).2.Properties inprops &&& kError ≠ 0) :=
  c6_decode_error_handling (⟨0, 1, 2⟩ : WeightVals Int)
    ⟨kEncodeLabels, .DECODE, ⟨kEncodeLabels, [], none, none⟩, false⟩
    ⟨3, 4, 7, 2⟩ rfl (by decide) (by decide)

lemma readTuples_roundtrip (tps : List (Tuple W)) (rest : List (Tok W S)) :
    readTuples tps.length
      ((tps.map (fun tp => [Tok.int tp.ilabel, Tok.int tp.olabel,
        Tok.wt tp.weight])).flatten ++ rest) = some (tps, rest) := by
  induction tps with
  | nil => simp [readTuples]
  | cons hd tl ih => simp [readTuples, readIntTok, readWtTok, ih]

/-- C7: writing an EncodeTable and reading the produced stream back is
the identity on the whole table, flags, tuple vector (hence Decode)
and symbol tables included; and a stream whose leading magic number
differs from 2129983209 fails the read. -/
theorem c7_write_read {W S : Type} (t : EncodeTable W S) :
    (t.WF → EncodeTable.readTokens t.writeTokens = some t) ∧
    (∀ (mnum : Int) (rest : List (Tok W S)), mnum ≠ kEncodeMagicNumber →
       EncodeTable.readTokens (Tok.int mnum :: rest) = none) := by
  constructor
  · rcases t with ⟨flags, tuples, isy, osy⟩
    rintro ⟨h1, h2, -⟩
    simp only [Option.isSome_iff_exists] at h1 h2
    simp only [EncodeTable.writeTokens, EncodeTable.readTokens, readIntTok,
      List.cons_append, List.append_assoc, Option.bind_eq_bind,
      Option.some_bind]
    rw [if_neg (by simp [kEncodeMagicNumber])]
    simp only [List.nil_append, Int.ofNat_eq_coe, Int.toNat_natCast,
      readTuples_roundtrip, Option.some_bind]
    by_cases hI : flags &&& kEncodeHasISymbols ≠ 0 <;>
      by_cases hO : flags &&& kEncodeHasOSymbols ≠ 0 <;>
        [obtain ⟨x, hx⟩ := h1.mp hI; obtain ⟨x, hx⟩ := h1.mp hI;
         skip; skip] <;>
      [obtain ⟨y, hy⟩ := h2.mp hO; skip; obtain ⟨y, hy⟩ := h2.mp hO; skip]
    · simp [hI, hO, hx, hy, readSymTok]
    · have : osy = none := by
        cases osy with
        | none => rfl
        | some y => exact absurd (h2.mpr ⟨y, rfl⟩) hO
      simp [hI, hO, hx, this, readSymTok]
    · have : isy = none := by
        cases isy with
        | none => rfl
        | some x => exact absurd (h1.mpr ⟨x, rfl⟩) hI
      simp [hI, hO, hy, this, readSymTok]
    · have hisy : isy = none := by
        cases isy with
        | none => rfl
        | some x => exact absurd (h1.mpr ⟨x, rfl⟩) hI
      have hosy : osy = none := by
        cases osy with
        | none => rfl
        | some y => exact absurd (h2.mpr ⟨y, rfl⟩) hO
      simp [hI, hO, hisy, hosy]
  · intro mnum rest hm
    simp [EncodeTable.readTokens, readIntTok, hm]

/-- Witness for c7_write_read: a two-tuple WEIGHTS table with an input
symbol table round-trips; the magic number 7 is rejected. -/
theorem c7_write_read_witness :
    ((⟨kEncodeWeights ||| kEncodeHasISymbols,
        [⟨1, 0, 5⟩, ⟨2, 0, 6⟩], some 11, none⟩ :
        EncodeTable Int Nat).WF →
      EncodeTable.readTokens
        (⟨kEncodeWeights ||| kEncodeHasISymbols,
          [⟨1, 0, 5⟩, ⟨2, 0, 6⟩], some 11, none⟩ :
          EncodeTable Int Nat).writeTokens =
        some ⟨kEncodeWeights ||| kEncodeHasISymbols,
          [⟨1, 0, 5⟩, ⟨2, 0, 6⟩], some 11, none⟩) ∧
    (∀ (mnum : Int) (rest : List (Tok Int Nat)), mnum ≠ kEncodeMagicNumber →
      EncodeTable.readTokens (Tok.int mnum :: rest) = none) :=
  c7_write_read ⟨kEncodeWeights ||| kEncodeHasISymbols,
    [⟨1, 0, 5⟩, ⟨2, 0, 6⟩], some 11, none⟩

lemma land_kError_ne_zero_iff (x : Nat) :
    x &&& kError ≠ 0 ↔ x.testBit 2 = true := by
  rw [show kError = 2 ^ 2 from rfl, Nat.and_two_pow]
  cases h : x.testBit 2 <;> simp [h]

lemma testBit2_lor_kError (x : Nat) : (x ||| kError).testBit 2 = true := by
  rw [Nat.testBit_or, show kError.testBit 2 = true from by decide,
    Bool.or_true]

lemma compArcIter_trace_succ (one : W) (fuel : Nat) (it : CompArcIter W) :
    CompArcIter.trace one (fuel + 1) it =
      if it.done then []
      else
        match it.value one with
        | none => []
        | some a => a :: CompArcIter.trace one fuel it.next := rfl

/-- The trace of a ComplementFst arc iterator from a position past the
rho arc: the remaining source arcs with shifted next states. -/
lemma compArcIter_trace_tail (one : W) (arcs : List (Arc W)) (s : Int)
    (hs : ¬ s = 0) :
    ∀ n k : Nat, arcs.length - k = n →
      CompArcIter.trace one n ⟨arcs, s, k + 1⟩ =
        (arcs.drop k).map (fun a => { a with nextstate := a.nextstate + 1 }) := by
  intro n
  induction n with
  | zero =>
      intro k hk
      unfold CompArcIter.trace
      rw [List.drop_eq_nil_of_le (by omega)]
      simp
  | succ n ih =>
      intro k hk
      have hklt : k < arcs.length := by omega
      unfold CompArcIter.trace
      rw [if_neg (by simp [CompArcIter.done, hs]; omega)]
      have hval : CompArcIter.value one ⟨arcs, s, k + 1⟩ =
          some { arcs[k] with nextstate := arcs[k].nextstate + 1 } := by
        unfold CompArcIter.value
        simp [List.getElem?_eq_getElem hklt]
      rw [hval]
      show _ :: CompArcIter.trace one n ⟨arcs, s, k + 1 + 1⟩ = _
      rw [ih (k + 1) (by omega), List.drop_eq_getElem_cons hklt,
        List.map_cons]

/-- C3: the complement's state 0 carries exactly the rho self-arc
(kRhoLabel, kRhoLabel, One, 0); every state s > 0 first yields that
rho arc and then every arc of source state s - 1 with its nextstate
incremented by one and all other fields unchanged; NumArcs follows. -/
theorem c3_complement_arcs {W : Type} (one : W) (impl : ComplementFstImpl W)
    (s : Int) (hs : 0 < s) :
    (CompArcIter.trace one (impl.NumArcs 0) (CompArcIter.init impl 0) =
       [rhoArc one] ∧
     impl.NumArcs 0 = 1) ∧
    (CompArcIter.trace one (impl.NumArcs s) (CompArcIter.init impl s) =
       rhoArc one :: (impl.fst.arcs (s - 1)).map
         (fun a => { a with nextstate := a.nextstate + 1 }) ∧
     impl.NumArcs s = (impl.fst.arcs (s - 1)).length + 1) := by
  have hs0 : ¬ s = 0 := by omega
  refine ⟨⟨?_, rfl⟩, ?_, ?_⟩
  · rw [show impl.NumArcs 0 = 1 from rfl]
    rfl
  · have hnum : impl.NumArcs s = (impl.fst.arcs (s - 1)).length + 1 := by
      unfold ComplementFstImpl.NumArcs
      rw [if_neg hs0]
    have hinit : CompArcIter.init impl s = ⟨impl.fst.arcs (s - 1), s, 0⟩ := by
      unfold CompArcIter.init
      rw [if_pos hs0]
    rw [hnum, hinit, compArcIter_trace_succ]
    rw [if_neg (by simp [CompArcIter.done, hs0])]
    rw [show CompArcIter.value one ⟨impl.fst.arcs (s - 1), s, 0⟩ =
      some (rhoArc one) from by unfold CompArcIter.value; simp]
    show rhoArc one ::
      CompArcIter.trace one _ ⟨impl.fst.arcs (s - 1), s, 0 + 1⟩ = _
    rw [show (0 + 1 : Nat) = 0 + 1 from rfl,
      compArcIter_trace_tail one (impl.fst.arcs (s - 1)) s hs0
        (impl.fst.arcs (s - 1)).length 0 (by omega)]
    simp
  · unfold ComplementFstImpl.NumArcs
    rw [if_neg hs0]

/-- Witness for c3_complement_arcs: the complement of the one-state
source with a single self-arc (1, 1, 3, 0), at state s = 1. -/
theorem c3_complement_arcs_witness :
    (CompArcIter.trace (0 : Int)
       ((mkComplementFst ⟨0, fun _ => 1, fun _ => [⟨1, 1, 3, 0⟩],
          complementPrecondition⟩).NumArcs 0)
       (CompArcIter.init
         (mkComplementFst ⟨0, fun _ => 1, fun _ => [⟨1, 1, 3, 0⟩],
           complementPrecondition⟩) 0) = [rhoArc 0] ∧
     (mkComplementFst ⟨0, fun _ => 1, fun _ => [⟨1, 1, 3, 0⟩],
        complementPrecondition⟩).NumArcs 0 = 1) ∧
    (CompArcIter.trace (0 : Int)
       ((mkComplementFst ⟨0, fun _ => 1, fun _ => [⟨1, 1, 3, 0⟩],
          complementPrecondition⟩).NumArcs 1)
       (CompArcIter.init
         (mkComplementFst ⟨0, fun _ => 1, fun _ => [⟨1, 1, 3, 0⟩],
           complementPrecondition⟩) 1) =
       rhoArc 0 ::
         ((mkComplementFst ⟨0, fun _ => 1, fun _ => [⟨1, 1, 3, 0⟩],
            complementPrecondition⟩).fst.arcs (1 - 1)).map
           (fun a => { a with nextstate := a.nextstate + 1 }) ∧
     (mkComplementFst ⟨0, fun _ => 1, fun _ => [⟨1, 1, 3, 0⟩],
        complementPrecondition⟩).NumArcs 1 =
       ((mkComplementFst ⟨0, fun _ => 1, fun _ => [⟨1, 1, 3, 0⟩],
          complementPrecondition⟩).fst.arcs (1 - 1)).length + 1) :=
  c3_complement_arcs 0
    (mkComplementFst ⟨0, fun _ => 1, fun _ => [⟨1, 1, 3, 0⟩],
      complementPrecondition⟩) 1 (by decide)

/-- C4 (amended: the start mapping holds when the complement's kError
property is not set; when kError is set, Start returns kNoStateId, see
the Start guard).  Under a clear error bit the complement's start is
s0 + 1 for a source start s0 ≥ 0 and 0 for a startless source; the
finality always satisfies Final(0) = One, and for s > 0, Final(s) is
One exactly when the source's Final(s - 1) is Zero and Zero
otherwise. -/
theorem c4_start_final {W : Type} [DecidableEq W] (wv : WeightVals W)
    (impl : ComplementFstImpl W) (s : Int) (hs : 0 < s) :
    ((impl.PropertiesM kError).1 = 0 → 0 ≤ impl.fst.start →
       impl.Start = impl.fst.start + 1) ∧
    ((impl.PropertiesM kError).1 = 0 → impl.fst.start = kNoStateId →
       impl.Start = 0) ∧
    impl.Final wv 0 = wv.One ∧
    (impl.fst.final (s - 1) = wv.Zero → impl.Final wv s = wv.One) ∧
    (impl.fst.final (s - 1) ≠ wv.Zero → impl.Final wv s = wv.Zero) := by
  have hs0 : ¬ s = 0 := by omega
  refine ⟨?_, ?_, ?_, ?_, ?_⟩
  · intro herr hstart
    unfold ComplementFstImpl.Start
    rw [if_neg (by simp [herr])]
    rw [if_pos (by unfold kNoStateId; omega)]
  · intro herr hstart
    unfold ComplementFstImpl.Start
    rw [if_neg (by simp [herr]), if_neg (by simp [hstart])]
  · unfold ComplementFstImpl.Final
    rw [if_pos (Or.inl rfl)]
  · intro hz
    unfold ComplementFstImpl.Final
    rw [if_pos (Or.inr hz)]
  · intro hz
    unfold ComplementFstImpl.Final
    rw [if_neg (by simp [hs0, hz])]

/-- Witness for c4_start_final: the complement of a two-state acceptor
source satisfying the precondition, with start 0, at s = 2: the start
maps to 1, state 0 is final with One, and state 2 (source state 1,
final there) gets Zero. -/
theorem c4_start_final_witness :
    (mkComplementFst ⟨0, fun q => if q = 0 then 1 else 0,
       fun _ => [⟨1, 1, 0, 1⟩], complementPrecondition⟩).Start = 0 + 1 ∧
    (mkComplementFst ⟨0, fun q => if q = 0 then 1 else 0,
       fun _ => [⟨1, 1, 0, 1⟩],
       complementPrecondition⟩).Final (⟨0, 1, 2⟩ : WeightVals Int) 0 = 0 ∧
    (mkComplementFst ⟨0, fun q => if q = 0 then 1 else 0,
       fun _ => [⟨1, 1, 0, 1⟩],
       complementPrecondition⟩).Final (⟨0, 1, 2⟩ : WeightVals Int) 2 = 1 := by
  have h := c4_start_final (⟨0, 1, 2⟩ : WeightVals Int)
    (mkComplementFst ⟨0, fun q => if q = 0 then 1 else 0,
      fun _ => [⟨1, 1, 0, 1⟩], complementPrecondition⟩) 2 (by decide)
  exact ⟨h.1 (by decide) (by decide), h.2.2.1, h.2.2.2.2 (by decide)⟩

/-- Counterexample to C4 as stated: a source violating the complement
precondition (its property bits are all clear) with start state 0; the
constructor sets kError, so Start returns kNoStateId = -1, not
s0 + 1 = 1 as the unconditional claim requires. -/
theorem c4_counterexample :
    (mkComplementFst (⟨0, fun _ => 1, fun _ => [], 0⟩ : SrcFst Int)).Start =
      kNoStateId ∧
    (mkComplementFst (⟨0, fun _ => 1, fun _ => [], 0⟩ : SrcFst Int)).Start ≠
      0 + 1 := by
  constructor <;> decide

lemma propertiesM_of_error (impl : ComplementFstImpl W)
    (h : impl.props.testBit 2 = true) (mask : Nat)
    (hm : mask.testBit 2 = true) :
    (impl.PropertiesM mask).1 &&& kError ≠ 0 ∧
    (impl.PropertiesM mask).2.props &&& kError ≠ 0 := by
  unfold ComplementFstImpl.PropertiesM
  split_ifs with hc <;> dsimp only <;> constructor
  · rw [land_kError_ne_zero_iff, Nat.testBit_and, Nat.testBit_or, h, hm]
    rfl
  · rw [land_kError_ne_zero_iff, Nat.testBit_or, h]
    rfl
  · rw [land_kError_ne_zero_iff, Nat.testBit_and, h, hm]
    rfl
  · rw [land_kError_ne_zero_iff]
    exact h

/-- C5: a source that is not an unweighted, epsilon-free,
input-deterministic acceptor makes the ComplementFst constructor set
the kError property bit, and every subsequent Properties query whose
mask tests kError reports the error, both in its result and in the
sticky stored bitset. -/
theorem c5_precondition_error {W : Type} (src : SrcFst W)
    (h : src.props &&& complementPrecondition ≠ complementPrecondition) :
    (mkComplementFst src).props &&& kError ≠ 0 ∧
    (∀ mask : Nat, mask &&& kError ≠ 0 →
       ((mkComplementFst src).PropertiesM mask).1 &&& kError ≠ 0 ∧
       ((mkComplementFst src).PropertiesM mask).2.props &&& kError ≠ 0) := by
  have hprops : (mkComplementFst src).props =
      ComplementProperties (src.props &&& kILabelSorted) ||| kError := by
    unfold mkComplementFst
    rw [if_pos h]
  constructor
  · rw [hprops, land_kError_ne_zero_iff]
    exact testBit2_lor_kError _
  · intro mask hmask
    rw [land_kError_ne_zero_iff] at hmask
    exact propertiesM_of_error _
      (by rw [hprops]; exact testBit2_lor_kError _) mask hmask

/-- Witness for c5_precondition_error: a source with every property
bit clear (in particular not an acceptor) triggers the error. -/
theorem c5_precondition_error_witness :
    (mkComplementFst (⟨0, fun _ => 1, fun _ => [], 0⟩ : SrcFst Int)).props &&&
        kError ≠ 0 ∧
    (∀ mask : Nat, mask &&& kError ≠ 0 →
       ((mkComplementFst (⟨0, fun _ => 1, fun _ => [], 0⟩ :
           SrcFst Int)).PropertiesM mask).1 &&& kError ≠ 0 ∧
       ((mkComplementFst (⟨0, fun _ => 1, fun _ => [], 0⟩ :
           SrcFst Int)).PropertiesM mask).2.props &&& kError ≠ 0) :=
  c5_precondition_error ⟨0, fun _ => 1, fun _ => [], 0⟩ (by decide)

lemma mkComplementFst_fst (src : SrcFst W) :
    (mkComplementFst src).fst = src := by
  unfold mkComplementFst
  split_ifs <;> rfl

/-- C10: whenever the complement's kError property is set — in
particular whenever the source violates the complement precondition —
Start() returns kNoStateId even if the source has a valid start state;
the normal start mapping (s0 + 1, or 0 when the source has no start)
applies exactly when the Properties(kError) query reports no error. -/
theorem c10_start_error_guard {W : Type} (src : SrcFst W) :
    (((mkComplementFst src).PropertiesM kError).1 ≠ 0 →
       (mkComplementFst src).Start = kNoStateId) ∧
    (src.props &&& complementPrecondition ≠ complementPrecondition →
       (mkComplementFst src).Start = kNoStateId) ∧
    (((mkComplementFst src).PropertiesM kError).1 = 0 →
       (mkComplementFst src).Start =
         if src.start ≠ kNoStateId then src.start + 1 else 0) := by
  refine ⟨?_, ?_, ?_⟩
  · intro herr
    unfold ComplementFstImpl.Start
    rw [if_pos herr]
  · intro h
    have herr := (c5_precondition_error src h).2 kError (by decide)
    have hne : ((mkComplementFst src).PropertiesM kError).1 ≠ 0 := by
      intro h0
      exact herr.1 (by rw [h0]; rfl)
    unfold ComplementFstImpl.Start
    rw [if_pos hne]
  · intro herr
    unfold ComplementFstImpl.Start
    rw [if_neg (by simp [herr]), mkComplementFst_fst]

/-- Witness for c10_start_error_guard: the precondition-violating
source with start 0: the query reports an error and Start returns
kNoStateId. -/
theorem c10_start_error_guard_witness :
    (((mkComplementFst (⟨0, fun _ => 1, fun _ => [], 0⟩ :
         SrcFst Int)).PropertiesM kError).1 ≠ 0 →
       (mkComplementFst (⟨0, fun _ => 1, fun _ => [], 0⟩ :
         SrcFst Int)).Start = kNoStateId) ∧
    ((0 : Nat) &&& complementPrecondition ≠ complementPrecondition →
       (mkComplementFst (⟨0, fun _ => 1, fun _ => [], 0⟩ :
         SrcFst Int)).Start = kNoStateId) ∧
    (((mkComplementFst (⟨0, fun _ => 1, fun _ => [], 0⟩ :
         SrcFst Int)).PropertiesM kError).1 = 0 →
       (mkComplementFst (⟨0, fun _ => 1, fun _ => [], 0⟩ :
         SrcFst Int)).Start =
         if (0 : Int) ≠ kNoStateId then (0 : Int) + 1 else 0) :=
  c10_start_error_guard (⟨0, fun _ => 1, fun _ => [], 0⟩ : SrcFst Int)

/-- C9 (amended): driving the PartialCopyVisitor with maxvisit = 3
over the 10-state chain initializes four states, not three: InitState
increments ninit before comparing it to maxvisit, so the call that
crosses the cap has already added its state and been counted, and that
state is also finished during the drain.  The run yields
NumInitialized() = 4, NumFinished() = 4 and an output with exactly 4
initialized states. -/
theorem c9_partial_copy :
    (visitRun chainParams [] pcv0 100).map
        (fun p => (p.2.ninit, p.2.nfinish, p.2.ofstNumStates)) =
      some (4, 4, 4) := by
  decide

/-- Counterexample to C9 as stated: on the 10-state chain with
maxvisit = 3 the run does not produce three initialized states with
NumInitialized() = 3 and NumFinished() = 3. -/
theorem c9_counterexample :
    (visitRun chainParams [] pcv0 100).map
        (fun p => (p.2.ninit, p.2.nfinish, p.2.ofstNumStates)) ≠
      some (3, 3, 3) := by
  decide

lemma mem_greySet {cfg : VCfg α σ V} {x : Nat} :
    x ∈ greySet cfg ↔
      x < cfg.status.length ∧ cfg.status.getD x 0 &&& kGreyState ≠ 0 := by
  simp [greySet, Finset.mem_filter, Finset.mem_range]

lemma greySet_set {c c' : VCfg α σ V} (s v : Nat) (hs : s < c.status.length)
    (h : c'.status = c.status.set s v) :
    greySet c' =
      if v &&& kGreyState ≠ 0 then insert s (greySet c)
      else (greySet c).erase s := by
  unfold greySet
  rw [h, List.length_set]
  ext x
  by_cases hx : x = s
  · subst hx
    split_ifs with hv <;>
      simp [Finset.mem_filter, Finset.mem_range, List.getD_eq_getElem?_getD,
        List.getElem?_set, hs, hv]
  · split_ifs with hv <;>
      simp [Finset.mem_filter, Finset.mem_range, List.getD_eq_getElem?_getD,
        List.getElem?_set, Ne.symm hx, hx]

lemma getD_append_white (l : List Nat) (k j : Nat) :
    (l ++ List.replicate k kWhiteState).getD j 0 =
      if j < l.length then l.getD j 0
      else if j < l.length + k then kWhiteState else 0 := by
  by_cases hj : j < l.length
  · rw [if_pos hj, List.getD_append _ _ _ _ hj]
  · rw [if_neg hj, List.getD_eq_getElem?_getD,
      List.getElem?_append_right (le_of_not_lt hj), List.getElem?_replicate]
    by_cases hk : j < l.length + k
    · rw [if_pos hk, if_pos (by omega)]
      rfl
    · rw [if_neg hk, if_neg (by omega)]
      rfl

lemma greySet_append_white {c c' : VCfg α σ V} (k : Nat)
    (h : c'.status = c.status ++ List.replicate k kWhiteState) :
    greySet c' = greySet c := by
  unfold greySet
  rw [h]
  ext x
  simp only [Finset.mem_filter, Finset.mem_range, List.length_append,
    List.length_replicate, getD_append_white]
  constructor
  · rintro ⟨hx, hbit⟩
    by_cases hlt : x < c.status.length
    · rw [if_pos hlt] at hbit
      exact ⟨hlt, hbit⟩
    · rw [if_neg hlt, if_pos (by omega)] at hbit
      exact absurd rfl hbit
  · rintro ⟨hx, hbit⟩
    refine ⟨by omega, ?_⟩
    rw [if_pos hx]
    exact hbit

lemma growCfg_of_le (cfg : VCfg α σ V) (n : Nat)
    (h : n ≤ cfg.status.length) : growCfg cfg n = cfg := by
  unfold growCfg
  rw [if_neg (by omega)]

lemma visitInv_growCfg {toMS : σ → Multiset Nat} (cfg : VCfg α σ V) (n : Nat)
    (h : VisitInv toMS cfg) : VisitInv toMS (growCfg cfg n) := by
  obtain ⟨hq, hsl, hal, hroot⟩ := h
  unfold growCfg
  split_ifs with hlt
  · refine ⟨?_, ?_, ?_, ?_⟩
    · rw [greySet_append_white (c := cfg) (k := n - cfg.status.length) rfl]
      exact hq
    · simp only [List.length_append, List.length_replicate]
      omega
    · simp only [List.length_append, List.length_replicate]
      omega
    · intro hphase hrootlt
      replace hrootlt : cfg.root < n := hrootlt
      replace hphase : cfg.phase = VPhase.rootCheck := hphase
      show (cfg.status ++
        List.replicate (n - cfg.status.length) kWhiteState).getD cfg.root 0 =
        kWhiteState
      rw [getD_append_white]
      by_cases hc : cfg.root < cfg.status.length
      · rw [if_pos hc]
        exact hroot hphase (by omega)
      · rw [if_neg hc, if_pos (by omega)]
  · exact ⟨hq, hsl, hal, hroot⟩

lemma growCfg_length_ge (cfg : VCfg α σ V) (n : Nat) :
    n ≤ (growCfg cfg n).status.length ∧
    cfg.status.length ≤ (growCfg cfg n).status.length := by
  unfold growCfg
  split_ifs with hlt
  · simp only [List.length_append, List.length_replicate]
    omega
  · omega

lemma growCfg_queue (cfg : VCfg α σ V) (n : Nat) :
    (growCfg cfg n).queue = cfg.queue := by
  unfold growCfg
  split_ifs <;> rfl

lemma growCfg_visit (cfg : VCfg α σ V) (n : Nat) :
    (growCfg cfg n).visit = cfg.visit := by
  unfold growCfg
  split_ifs <;> rfl

lemma growCfg_phase (cfg : VCfg α σ V) (n : Nat) :
    (growCfg cfg n).phase = cfg.phase := by
  unfold growCfg
  split_ifs <;> rfl

lemma growCfg_greySet (cfg : VCfg α σ V) (n : Nat) :
    greySet (growCfg cfg n) = greySet cfg := by
  unfold growCfg
  split_ifs with hlt
  · exact greySet_append_white (c := cfg) (k := n - cfg.status.length) rfl
  · rfl

lemma grey_or_done_not_grey_iff (g : Nat) :
    (g ||| kArcIterDone) &&& kGreyState ≠ 0 ↔ g &&& kGreyState ≠ 0 := by
  rw [show kGreyState = 2 ^ 1 from rfl, Nat.and_two_pow, Nat.and_two_pow,
    Nat.testBit_or, show kArcIterDone.testBit 1 = false from by decide,
    Bool.or_false]

/-- Setting the ArcIterDone bit never changes the Grey states. -/
lemma greySet_set_done {c c' : VCfg α σ V} (s : Nat)
    (h : c'.status = c.status.set s (c.status.getD s 0 ||| kArcIterDone)) :
    greySet c' = greySet c := by
  by_cases hs : s < c.status.length
  · rw [greySet_set s _ hs h]
    by_cases hg : c.status.getD s 0 &&& kGreyState ≠ 0
    · rw [if_pos ((grey_or_done_not_grey_iff _).mpr hg)]
      exact Finset.insert_eq_self.mpr (mem_greySet.mpr ⟨hs, hg⟩)
    · rw [if_neg (by rw [grey_or_done_not_grey_iff]; exact hg)]
      refine Finset.erase_eq_self.mpr ?_
      intro hmem
      exact hg (mem_greySet.mp hmem).2
  · unfold greySet
    rw [h, List.set_eq_of_length_le (by omega)]

lemma visitInv_advanceIter {toMS : σ → Multiset Nat} (cfg : VCfg α σ V)
    (s : Nat) (rest : List α) (h : VisitInv toMS cfg)
    (hphase : cfg.phase ≠ VPhase.rootCheck) :
    VisitInv toMS (advanceIter cfg s rest) := by
  obtain ⟨hq, hsl, hal, hroot⟩ := h
  unfold advanceIter
  split_ifs with hrest
  · refine ⟨?_, ?_, ?_, ?_⟩
    · rw [greySet_set_done (c := cfg) s rfl]
      exact hq
    · simp [List.length_set, hsl]
    · simp [List.length_set, hal]
    · intro hp
      exact absurd hp hphase
  · refine ⟨hq, hsl, by simp [List.length_set, hal], fun hp => absurd hp hphase⟩

lemma fifoLaws : QueueLaws fifoQueue fifoToMS := by
  constructor
  · intro q
    cases q <;> simp [fifoQueue, fifoToMS]
  · intro q hq
    cases q with
    | nil => simp [fifoQueue] at hq
    | cons a t => simp [fifoQueue, fifoToMS]
  · intro q s
    simp [fifoQueue, fifoToMS]
  · intro q hq
    cases q with
    | nil => simp [fifoQueue] at hq
    | cons a t => simp [fifoQueue, fifoToMS, Multiset.erase_cons_head]

lemma visitInv_core {toMS : σ → Multiset Nat} {c c' : VCfg α σ V}
    (hinv : VisitInv toMS c) (hst : c'.status = c.status)
    (hai : c'.aiters.length = c.aiters.length) (hq : c'.queue = c.queue)
    (hns : c'.nstates = c.nstates) (hph : c'.phase ≠ VPhase.rootCheck) :
    VisitInv toMS c' := by
  obtain ⟨h1, h2, h3, -⟩ := hinv
  have hgs : greySet c' = greySet c := by
    unfold greySet
    rw [hst]
  refine ⟨?_, ?_, ?_, fun hp => absurd hp hph⟩
  · rw [hq, hgs]
    exact h1
  · rw [hst, hns]
    exact h2
  · rw [hai, hns]
    exact h3

lemma visitInv_set_done {toMS : σ → Multiset Nat} (c : VCfg α σ V)
    (hinv : VisitInv toMS c) (hph : c.phase ≠ VPhase.rootCheck) (s : Nat) :
    VisitInv toMS
      { c with status := c.status.set s (c.status.getD s 0 ||| kArcIterDone) } := by
  obtain ⟨h1, h2, h3, -⟩ := hinv
  refine ⟨?_, by simp [List.length_set, h2], by simp [h3],
    fun hp => absurd hp hph⟩
  rw [greySet_set_done (c := c) s rfl]
  exact h1

lemma stepInnerCreate_status (P : VisitParams α σ V) (cfg : VCfg α σ V)
    (s : Nat) : (stepInnerCreate P cfg s).status = cfg.status := by
  unfold stepInnerCreate
  split_ifs <;> rfl

lemma stepInnerCreate_queue (P : VisitParams α σ V) (cfg : VCfg α σ V)
    (s : Nat) : (stepInnerCreate P cfg s).queue = cfg.queue := by
  unfold stepInnerCreate
  split_ifs <;> rfl

lemma stepInnerCreate_visit (P : VisitParams α σ V) (cfg : VCfg α σ V)
    (s : Nat) : (stepInnerCreate P cfg s).visit = cfg.visit := by
  unfold stepInnerCreate
  split_ifs <;> rfl

lemma stepInnerCreate_phase (P : VisitParams α σ V) (cfg : VCfg α σ V)
    (s : Nat) : (stepInnerCreate P cfg s).phase = cfg.phase := by
  unfold stepInnerCreate
  split_ifs <;> rfl

lemma visitInv_stepInnerCreate (P : VisitParams α σ V)
    {toMS : σ → Multiset Nat} (cfg : VCfg α σ V) (hinv : VisitInv toMS cfg)
    (hph : cfg.phase ≠ VPhase.rootCheck) (s : Nat) :
    VisitInv toMS (stepInnerCreate P cfg s) := by
  unfold stepInnerCreate
  split_ifs with hc
  · exact visitInv_core hinv rfl (by simp [List.length_set]) rfl rfl hph
  · exact hinv

lemma stepInnerDestroy_queue (cfg : VCfg α σ V) (s : Nat) :
    (stepInnerDestroy cfg s).queue = cfg.queue := by
  unfold stepInnerDestroy
  dsimp only
  split_ifs <;> rfl

lemma stepInnerDestroy_visit (cfg : VCfg α σ V) (s : Nat) :
    (stepInnerDestroy cfg s).visit = cfg.visit := by
  unfold stepInnerDestroy
  dsimp only
  split_ifs <;> rfl

lemma stepInnerDestroy_phase (cfg : VCfg α σ V) (s : Nat) :
    (stepInnerDestroy cfg s).phase = cfg.phase := by
  unfold stepInnerDestroy
  dsimp only
  split_ifs <;> rfl

lemma stepInnerDestroy_status_length (cfg : VCfg α σ V) (s : Nat) :
    (stepInnerDestroy cfg s).status.length = cfg.status.length := by
  unfold stepInnerDestroy
  dsimp only
  split_ifs <;> simp [List.length_set]

lemma stepInnerDestroy_greySet (cfg : VCfg α σ V) (s : Nat) :
    greySet (stepInnerDestroy cfg s) = greySet cfg := by
  unfold stepInnerDestroy
  dsimp only
  split_ifs with hc
  · exact greySet_set_done (c := cfg) s rfl
  · rfl

lemma visitInv_stepInnerDestroy {toMS : σ → Multiset Nat} (cfg : VCfg α σ V)
    (hinv : VisitInv toMS cfg) (hph : cfg.phase ≠ VPhase.rootCheck) (s : Nat) :
    VisitInv toMS (stepInnerDestroy cfg s) := by
  unfold stepInnerDestroy
  dsimp only
  split_ifs with hc
  · obtain ⟨h1, h2, h3, -⟩ := hinv
    refine ⟨?_, by simp [List.length_set, h2], by simp [List.length_set, h3],
      fun hp => absurd hp hph⟩
    rw [greySet_set_done (c := cfg) s rfl]
    exact h1
  · exact hinv

lemma visitInv_finish_branch {toMS : σ → Multiset Nat} {Q : QueueI σ}
    (laws : QueueLaws Q toMS) (c : VCfg α σ V) (hinv : VisitInv toMS c)
    (hne : Q.isEmpty c.queue = false) (v' : V) (s : Nat)
    (hs : s = Q.head c.queue) :
    VisitInv toMS
      { c with queue := Q.dequeue c.queue, vstate := v',
               status := c.status.set s kBlackState,
               phase := .inner } := by
  subst hs
  obtain ⟨h1, h2, h3, -⟩ := hinv
  have hmem : Q.head c.queue ∈ toMS c.queue := laws.head_mem _ hne
  have hsg : Q.head c.queue ∈ greySet c := by
    rw [h1] at hmem
    exact hmem
  have hslen : Q.head c.queue < c.status.length := (mem_greySet.mp hsg).1
  refine ⟨?_, by simp [List.length_set, h2], by simp [h3], by simp⟩
  rw [laws.dequeue_ms _ hne, h1]
  have hgs : greySet
      { c with queue := Q.dequeue c.queue, vstate := v',
               status := c.status.set (Q.head c.queue) kBlackState,
               phase := VPhase.inner } =
      (greySet c).erase (Q.head c.queue) := by
    rw [greySet_set (c := c) _ kBlackState hslen rfl, if_neg (by decide)]
  rw [hgs, Finset.erase_val]

lemma visitInv_white_branch {toMS : σ → Multiset Nat} {Q : QueueI σ}
    (laws : QueueLaws Q toMS) (c : VCfg α σ V) (hinv : VisitInv toMS c)
    (hph : c.phase ≠ VPhase.rootCheck) (ns : Nat)
    (hlen : ns < c.status.length)
    (hwhite : c.status.getD ns 0 = kWhiteState) (b : Bool) (v' : V) :
    VisitInv toMS
      { c with visit := b, vstate := v',
               status := c.status.set ns kGreyState,
               queue := Q.enqueue c.queue ns } := by
  obtain ⟨h1, h2, h3, -⟩ := hinv
  have hnot : ns ∉ greySet c := by
    rw [mem_greySet]
    rintro ⟨-, hbit⟩
    rw [hwhite] at hbit
    exact hbit rfl
  refine ⟨?_, by simp [List.length_set, h2], by simp [h3],
    fun hp => absurd hp hph⟩
  rw [laws.enqueue_ms, h1]
  have hgs : greySet
      { c with visit := b, vstate := v',
               status := c.status.set ns kGreyState,
               queue := Q.enqueue c.queue ns } =
      insert ns (greySet c) := by
    rw [greySet_set (c := c) ns kGreyState hlen rfl, if_pos (by decide)]
  rw [hgs, Finset.insert_val, Multiset.ndinsert_of_not_mem hnot]

lemma findWhiteFrom_white_aux (status : List Nat) (nstates : Nat) :
    ∀ (k start : Nat), nstates - start ≤ k →
      findWhiteFrom status nstates start < nstates →
      status.getD (findWhiteFrom status nstates start) 0 = kWhiteState := by
  intro k
  induction k with
  | zero =>
      intro start hle hlt
      rw [findWhiteFrom, if_neg (by omega)] at hlt ⊢
      omega
  | succ n ih =>
      intro start hle hlt
      by_cases hs : start < nstates
      · rw [findWhiteFrom, if_pos hs] at hlt ⊢
        by_cases hw : status.getD start 0 = kWhiteState
        · rw [if_pos hw]
          exact hw
        · rw [if_neg hw] at hlt ⊢
          exact ih (start + 1) (by omega) hlt
      · rw [findWhiteFrom, if_neg hs] at hlt
        omega

lemma findWhiteFrom_white (status : List Nat) (nstates start : Nat)
    (h : findWhiteFrom status nstates start < nstates) :
    status.getD (findWhiteFrom status nstates start) 0 = kWhiteState :=
  findWhiteFrom_white_aux status nstates nstates start (by omega) h

lemma visitInv_processArc (P : VisitParams α σ V) {toMS : σ → Multiset Nat}
    (laws : QueueLaws P.q toMS) (c : VCfg α σ V) (hinv : VisitInv toMS c)
    (hph : c.phase = VPhase.inner) (s : Nat) (a : α) (rest : List α) :
    VisitInv toMS (processArc P c s a rest).2 := by
  have hinv1 : VisitInv toMS (growCfg c (P.anext a + 1)) :=
    visitInv_growCfg _ _ hinv
  have hph1 : (growCfg c (P.anext a + 1)).phase = VPhase.inner := by
    rw [growCfg_phase, hph]
  unfold processArc
  dsimp only
  split_ifs with hfil hwhite hrefuse hblack
  · exact visitInv_core hinv1 rfl rfl rfl rfl (by simp)
  · apply visitInv_advanceIter _ _ _ _ (by simp [hph1])
    exact visitInv_white_branch laws _ hinv1 (by simp [hph1]) _
      (by have := (growCfg_length_ge c (P.anext a + 1)).1; omega) hwhite _ _
  · apply visitInv_advanceIter _ _ _ _ (by simp [hph1])
    exact visitInv_core hinv1 rfl rfl rfl rfl (by simp [hph1])
  · apply visitInv_advanceIter _ _ _ _ (by simp [hph1])
    exact visitInv_core hinv1 rfl rfl rfl rfl (by simp [hph1])
  · exact visitInv_advanceIter _ _ _ hinv1 (by simp [hph1])

lemma visitInv_stepInner (P : VisitParams α σ V) {toMS : σ → Multiset Nat}
    (laws : QueueLaws P.q toMS) (cfg : VCfg α σ V) (hinv : VisitInv toMS cfg)
    (hph : cfg.phase = VPhase.inner)
    (hne : P.q.isEmpty cfg.queue = false) :
    VisitInv toMS (stepInner P cfg (P.q.head cfg.queue)).2 := by
  have hmem : P.q.head cfg.queue ∈ toMS cfg.queue := laws.head_mem _ hne
  have hsg : P.q.head cfg.queue ∈ greySet cfg := by
    rw [hinv.1] at hmem
    exact hmem
  have hslen : P.q.head cfg.queue < cfg.status.length := (mem_greySet.mp hsg).1
  have hinv1 := visitInv_stepInnerCreate P cfg hinv (by simp [hph])
    (P.q.head cfg.queue)
  have hinv2 := visitInv_stepInnerDestroy _ hinv1
    (by rw [stepInnerCreate_phase]; simp [hph]) (P.q.head cfg.queue)
  have hq2 : (stepInnerDestroy (stepInnerCreate P cfg (P.q.head cfg.queue))
      (P.q.head cfg.queue)).queue = cfg.queue := by
    rw [stepInnerDestroy_queue, stepInnerCreate_queue]
  have hph2 : (stepInnerDestroy (stepInnerCreate P cfg (P.q.head cfg.queue))
      (P.q.head cfg.queue)).phase = VPhase.inner := by
    rw [stepInnerDestroy_phase, stepInnerCreate_phase, hph]
  unfold stepInner
  dsimp only
  rw [growCfg_of_le cfg _ (by omega)]
  split_ifs with hdone
  · have hne2 : P.q.isEmpty (stepInnerDestroy
        (stepInnerCreate P cfg (P.q.head cfg.queue))
        (P.q.head cfg.queue)).queue = false := by
      rw [hq2]
      exact hne
    exact visitInv_finish_branch laws _ hinv2 hne2
      (P.vis.finishState (stepInnerDestroy
        (stepInnerCreate P cfg (P.q.head cfg.queue))
        (P.q.head cfg.queue)).vstate (P.q.head cfg.queue))
      (P.q.head cfg.queue) (by rw [hq2])
  · rcases harc : (stepInnerDestroy (stepInnerCreate P cfg
        (P.q.head cfg.queue)) (P.q.head cfg.queue)).aiters.getD
        (P.q.head cfg.queue) none with - | l
    · exact visitInv_set_done _ hinv2 (by simp [hph2]) _
    · cases l with
      | nil => exact visitInv_set_done _ hinv2 (by simp [hph2]) _
      | cons a rest => exact visitInv_processArc P laws _ hinv2 hph2 _ a rest

/-- Every Visit control step preserves the invariant: the queue holds
exactly the Grey states. -/
lemma visitInv_step (P : VisitParams α σ V) {toMS : σ → Multiset Nat}
    (laws : QueueLaws P.q toMS) (cfg : VCfg α σ V)
    (hinv : VisitInv toMS cfg) : VisitInv toMS (stepC P cfg) := by
  obtain ⟨h1, h2, h3, h4⟩ := hinv
  unfold stepC visitStep
  cases hph : cfg.phase with
  | finished => exact ⟨h1, h2, h3, h4⟩
  | rootCheck =>
      dsimp only
      split_ifs with hc
      · have hwhite : cfg.status.getD cfg.root 0 = kWhiteState :=
          h4 hph (by rw [← h2] at hc; exact (by omega : cfg.root < cfg.nstates))
        have hrlen : cfg.root < cfg.status.length := by
          rw [h2]
          exact hc.2
        have hnot : cfg.root ∉ greySet cfg := by
          rw [mem_greySet]
          rintro ⟨-, hbit⟩
          rw [hwhite] at hbit
          exact hbit rfl
        refine ⟨?_, by simp [List.length_set, h2], by simp [h3], by simp⟩
        rw [laws.enqueue_ms, h1]
        have hgs : greySet
            { cfg with
              visit := (P.vis.initState cfg.vstate cfg.root cfg.root).1,
              vstate := (P.vis.initState cfg.vstate cfg.root cfg.root).2,
              status := cfg.status.set cfg.root kGreyState,
              queue := P.q.enqueue cfg.queue cfg.root,
              phase := VPhase.inner } = insert cfg.root (greySet cfg) := by
          rw [greySet_set (c := cfg) cfg.root kGreyState hrlen rfl,
            if_pos (by decide)]
        rw [hgs, Finset.insert_val, Multiset.ndinsert_of_not_mem hnot]
      · exact visitInv_core ⟨h1, h2, h3, h4⟩ rfl rfl rfl rfl (by simp)
  | findRoot =>
      dsimp only
      by_cases hgrow : ¬ P.fst.expanded = true ∧
          findWhiteFrom cfg.status cfg.nstates
            (if cfg.root = (P.fst.start).getD 0 then 0 else cfg.root + 1) =
          cfg.nstates
      · rw [if_pos hgrow]
        rcases hdrop : cfg.siter.dropWhile (fun x => x ≠ cfg.nstates) with
          - | ⟨x, rest⟩
        · dsimp only
          refine ⟨h1, h2, h3, ?_⟩
          intro hpr hlt
          replace hlt : findWhiteFrom cfg.status cfg.nstates
              (if cfg.root = (P.fst.start).getD 0 then 0
               else cfg.root + 1) < cfg.nstates := hlt
          rw [hgrow.2] at hlt
          omega
        · dsimp only
          refine ⟨?_, ?_, ?_, ?_⟩
          · rw [greySet_append_white (c := cfg) 1
              (by rw [List.replicate_one])]
            exact h1
          · show (cfg.status ++ [kWhiteState]).length = cfg.nstates + 1
            simp only [List.length_append, List.length_singleton]
            omega
          · show (cfg.aiters ++ [none]).length = cfg.nstates + 1
            simp only [List.length_append, List.length_singleton]
            omega
          · intro hpr hlt
            show (cfg.status ++ [kWhiteState]).getD
              (findWhiteFrom cfg.status cfg.nstates
                (if cfg.root = (P.fst.start).getD 0 then 0
                 else cfg.root + 1)) 0 = kWhiteState
            rw [hgrow.2, List.getD_eq_getElem?_getD, ← h2,
              List.getElem?_concat_length]
            rfl
      · rw [if_neg hgrow]
        refine ⟨h1, h2, h3, ?_⟩
        intro hpr hlt
        replace hlt : findWhiteFrom cfg.status cfg.nstates
            (if cfg.root = (P.fst.start).getD 0 then 0 else cfg.root + 1) <
            cfg.nstates := hlt
        exact findWhiteFrom_white cfg.status cfg.nstates _ hlt
  | inner =>
      dsimp only
      split_ifs with hempty haccess
      · exact visitInv_core ⟨h1, h2, h3, h4⟩ rfl rfl rfl rfl (by simp)
      · exact visitInv_core ⟨h1, h2, h3, h4⟩ rfl rfl rfl rfl (by simp)
      · exact visitInv_stepInner P laws cfg ⟨h1, h2, h3, h4⟩ hph
          (by simpa using hempty)

/-- The configuration Visit starts from satisfies the invariant. -/
lemma visitInv_init (P : VisitParams α σ V) {toMS : σ → Multiset Nat}
    (q0 : σ) (hq0 : toMS q0 = 0) (v1 : V) (st : Nat) :
    VisitInv toMS (initVCfg P q0 v1 st) := by
  unfold initVCfg
  refine ⟨?_, by simp, by simp, ?_⟩
  · rw [hq0]
    have hgs : greySet (⟨List.replicate
        (if P.fst.expanded then P.fst.numStates else st + 1) kWhiteState,
        List.replicate (if P.fst.expanded then P.fst.numStates else st + 1)
          none, q0, if P.fst.expanded then P.fst.numStates else st + 1, true,
        v1, st, P.fst.stateSeq, .rootCheck⟩ : VCfg α σ V) = ∅ := by
      unfold greySet
      rw [Finset.eq_empty_iff_forall_not_mem]
      intro x
      rw [Finset.mem_filter]
      rintro ⟨-, hbit⟩
      rw [List.getD_eq_getElem?_getD, List.getElem?_replicate] at hbit
      by_cases hx : x < (if P.fst.expanded then P.fst.numStates else st + 1)
      · rw [if_pos hx] at hbit
        exact hbit rfl
      · rw [if_neg hx] at hbit
        exact hbit rfl
    rw [hgs]
    rfl
  · intro hpr hlt
    replace hlt : st <
        (if P.fst.expanded then P.fst.numStates else st + 1) := hlt
    show (List.replicate
      (if P.fst.expanded then P.fst.numStates else st + 1)
      kWhiteState).getD st 0 = kWhiteState
    rw [List.getD_eq_getElem?_getD, List.getElem?_replicate, if_pos hlt]
    rfl

/-- The invariant holds at every configuration Visit reaches. -/
lemma visitInv_reaches (P : VisitParams α σ V) {toMS : σ → Multiset Nat}
    (laws : QueueLaws P.q toMS) {c c' : VCfg α σ V}
    (hinv : VisitInv toMS c) (hreach : VReaches P c c') :
    VisitInv toMS c' := by
  obtain ⟨n, rfl⟩ := hreach
  induction n with
  | zero => simpa using hinv
  | succ n ih =>
      rw [Function.iterate_succ_apply']
      exact visitInv_step P laws _ ih

lemma runVisitAux_finished (P : VisitParams α σ V) (f : Nat)
    (cfg : VCfg α σ V) (h : cfg.phase = VPhase.finished) :
    runVisitAux P f cfg = some ([], cfg) := by
  rw [runVisitAux.eq_def]
  dsimp only
  rw [if_pos h]

lemma runVisitAux_succ (P : VisitParams α σ V) (f : Nat) (cfg : VCfg α σ V)
    (h : ¬ cfg.phase = VPhase.finished) :
    runVisitAux P (f + 1) cfg =
      (runVisitAux P f (visitStep P cfg).2).map
        (fun p => ((visitStep P cfg).1 ++ p.1, p.2)) := by
  rw [runVisitAux.eq_def]
  dsimp only
  rw [if_neg h]

lemma visitStep_inner_empty_stop (P : VisitParams α σ V) (c : VCfg α σ V)
    (hph : c.phase = VPhase.inner) (he : P.q.isEmpty c.queue = true)
    (hacc : P.accessOnly = true) :
    visitStep P c = ([VEvent.finishVisit],
      { c with vstate := P.vis.finishVisit c.vstate,
               phase := VPhase.finished }) := by
  unfold visitStep
  rw [hph]
  dsimp only
  rw [he, if_pos rfl, hacc, if_pos rfl]

lemma visitStep_inner_empty_cont (P : VisitParams α σ V) (c : VCfg α σ V)
    (hph : c.phase = VPhase.inner) (he : P.q.isEmpty c.queue = true)
    (hacc : P.accessOnly = false) :
    visitStep P c = ([], { c with phase := VPhase.findRoot }) := by
  unfold visitStep
  rw [hph]
  dsimp only
  rw [he, if_pos rfl, hacc, if_neg (by simp)]

lemma visitStep_findRoot_spec (P : VisitParams α σ V) (c : VCfg α σ V)
    (hph : c.phase = VPhase.findRoot) :
    (visitStep P c).1 = [] ∧ (visitStep P c).2.visit = c.visit ∧
    (visitStep P c).2.phase = VPhase.rootCheck := by
  unfold visitStep
  rw [hph]
  dsimp only
  refine ⟨rfl, ?_, rfl⟩
  by_cases hgrow : ¬ P.fst.expanded = true ∧
      findWhiteFrom c.status c.nstates
        (if c.root = (P.fst.start).getD 0 then 0 else c.root + 1) =
      c.nstates
  · rw [if_pos hgrow]
    cases hdrop : c.siter.dropWhile (fun x => x ≠ c.nstates) <;> rfl
  · rw [if_neg hgrow]

lemma visitStep_rootCheck_stop (P : VisitParams α σ V) (c : VCfg α σ V)
    (hph : c.phase = VPhase.rootCheck) (hv : c.visit = false) :
    visitStep P c = ([VEvent.finishVisit],
      { c with vstate := P.vis.finishVisit c.vstate,
               phase := VPhase.finished }) := by
  unfold visitStep
  rw [hph]
  dsimp only
  rw [if_neg (by simp [hv])]

lemma stepInnerCreate_of_not_visit (P : VisitParams α σ V) (c : VCfg α σ V)
    (s : Nat) (hv : c.visit = false) : stepInnerCreate P c s = c := by
  unfold stepInnerCreate
  rw [if_neg (by simp [hv])]

lemma stepInnerDestroy_of_not_visit (c : VCfg α σ V) (s : Nat)
    (hv : c.visit = false) :
    stepInnerDestroy c s =
      { c with aiters := c.aiters.set s none,
               status := c.status.set s
                 (c.status.getD s 0 ||| kArcIterDone) } := by
  unfold stepInnerDestroy
  dsimp only
  rw [if_pos (by simp [hv])]

lemma or_done_land_ne (g : Nat) :
    (g ||| kArcIterDone) &&& kArcIterDone ≠ 0 := by
  rw [show kArcIterDone = 2 ^ 3 from rfl, Nat.and_two_pow, Nat.testBit_or,
    show Nat.testBit (2 ^ 3) 3 = true from by decide, Bool.or_true]
  simp

/-- One drain iteration: with visitation stopped, the head state's
iterator is destroyed and the state immediately finished; exactly one
FinishState is observed, the state leaves the queue and the Grey
set. -/
lemma visitStep_drain (P : VisitParams α σ V) {toMS : σ → Multiset Nat}
    (laws : QueueLaws P.q toMS) (c : VCfg α σ V) (hinv : VisitInv toMS c)
    (hph : c.phase = VPhase.inner) (hv : c.visit = false)
    (hne : P.q.isEmpty c.queue = false) :
    (visitStep P c).1 = [VEvent.finishState (P.q.head c.queue)] ∧
    (visitStep P c).2.phase = VPhase.inner ∧
    (visitStep P c).2.visit = false ∧
    toMS (visitStep P c).2.queue =
      (toMS c.queue).erase (P.q.head c.queue) ∧
    greySet (visitStep P c).2 = (greySet c).erase (P.q.head c.queue) := by
  have hmem := laws.head_mem _ hne
  have hsg : P.q.head c.queue ∈ greySet c := by
    rw [hinv.1] at hmem
    exact hmem
  have hslen : P.q.head c.queue < c.status.length := (mem_greySet.mp hsg).1
  have hstep : visitStep P c = stepInner P c (P.q.head c.queue) := by
    unfold visitStep
    rw [hph]
    dsimp only
    rw [hne, if_neg (by simp)]
  rw [hstep]
  have hD : stepInnerDestroy (stepInnerCreate P
      (growCfg c (P.q.head c.queue + 1)) (P.q.head c.queue))
      (P.q.head c.queue) =
      { c with
        aiters := c.aiters.set (P.q.head c.queue) none,
        status := c.status.set (P.q.head c.queue)
          (c.status.getD (P.q.head c.queue) 0 ||| kArcIterDone) } := by
    rw [growCfg_of_le c _ (by omega),
      stepInnerCreate_of_not_visit P c _ hv,
      stepInnerDestroy_of_not_visit c _ hv]
  have hdone : (c.status.set (P.q.head c.queue)
      (c.status.getD (P.q.head c.queue) 0 ||| kArcIterDone)).getD
        (P.q.head c.queue) 0 &&& kArcIterDone ≠ 0 := by
    rw [List.getD_eq_getElem?_getD, List.getElem?_set, if_pos rfl,
      if_pos hslen, Option.getD_some]
    exact or_done_land_ne _
  have hfull : stepInner P c (P.q.head c.queue) =
      ([VEvent.finishState (P.q.head c.queue)],
       { c with
         aiters := c.aiters.set (P.q.head c.queue) none,
         status := (c.status.set (P.q.head c.queue)
           (c.status.getD (P.q.head c.queue) 0 ||| kArcIterDone)).set
             (P.q.head c.queue) kBlackState,
         queue := P.q.dequeue c.queue,
         vstate := P.vis.finishState c.vstate (P.q.head c.queue),
         phase := VPhase.inner }) := by
    unfold stepInner
    dsimp only
    rw [hD, if_pos hdone]
  rw [hfull]
  refine ⟨rfl, rfl, hv, ?_, ?_⟩
  · show toMS (P.q.dequeue c.queue) = _
    rw [laws.dequeue_ms _ hne]
  · have e1 : greySet
        { c with
          aiters := c.aiters.set (P.q.head c.queue) none,
          status := c.status.set (P.q.head c.queue)
            (c.status.getD (P.q.head c.queue) 0 ||| kArcIterDone) } =
        greySet c := greySet_set_done (c := c) _ rfl
    have hcs : ({ c with
         aiters := c.aiters.set (P.q.head c.queue) none,
         status := (c.status.set (P.q.head c.queue)
           (c.status.getD (P.q.head c.queue) 0 ||| kArcIterDone)).set
             (P.q.head c.queue) kBlackState,
         queue := P.q.dequeue c.queue,
         vstate := P.vis.finishState c.vstate (P.q.head c.queue),
         phase := VPhase.inner } : VCfg α σ V).status =
        ({ c with
          aiters := c.aiters.set (P.q.head c.queue) none,
          status := c.status.set (P.q.head c.queue)
            (c.status.getD (P.q.head c.queue) 0 ||| kArcIterDone) } :
          VCfg α σ V).status.set (P.q.head c.queue) kBlackState := rfl
    have e2 := greySet_set
      (c := { c with
        aiters := c.aiters.set (P.q.head c.queue) none,
        status := c.status.set (P.q.head c.queue)
          (c.status.getD (P.q.head c.queue) 0 ||| kArcIterDone) })
      (P.q.head c.queue) kBlackState (by simp [List.length_set, hslen]) hcs
    rw [e2, if_neg (by decide), e1]

/-- After visitation stops, the engine performs exactly one
FinishState per queued (Grey) state and then FinishVisit. -/
lemma visit_drain (P : VisitParams α σ V) {toMS : σ → Multiset Nat}
    (laws : QueueLaws P.q toMS) :
    ∀ (n : Nat) (cfg : VCfg α σ V), VisitInv toMS cfg →
      cfg.phase = VPhase.inner → cfg.visit = false →
      Multiset.card (toMS cfg.queue) = n →
      ∃ (l : List Nat) (cfg' : VCfg α σ V),
        (l : Multiset Nat) = (greySet cfg).val ∧
        runVisitAux P (n + 3) cfg =
          some (l.map VEvent.finishState ++ [VEvent.finishVisit], cfg') := by
  intro n
  induction n with
  | zero =>
      intro cfg hinv hph hv hcard
      have hq0 : toMS cfg.queue = 0 := Multiset.card_eq_zero.mp hcard
      have hempty : P.q.isEmpty cfg.queue = true :=
        (laws.isEmpty_iff _).mpr hq0
      have hgval : (greySet cfg).val = 0 := by
        rw [← hinv.1]
        exact hq0
      by_cases hacc : P.accessOnly = true
      · have hstep := visitStep_inner_empty_stop P cfg hph hempty hacc
        have hrun : runVisitAux P (0 + 3) cfg =
            some (([] : List Nat).map VEvent.finishState ++
                [VEvent.finishVisit],
              { cfg with vstate := P.vis.finishVisit cfg.vstate,
                         phase := VPhase.finished }) := by
          rw [show (0 + 3 : Nat) = 2 + 1 from rfl,
            runVisitAux_succ P 2 cfg (by simp [hph]), hstep,
            runVisitAux_finished P 2 _ rfl]
          rfl
        exact ⟨[], _, by rw [hgval]; rfl, hrun⟩
      · have hacc' : P.accessOnly = false := by
          revert hacc
          cases P.accessOnly <;> simp
        have hstep1 := visitStep_inner_empty_cont P cfg hph hempty hacc'
        have hspec := visitStep_findRoot_spec P
          { cfg with phase := VPhase.findRoot } rfl
        have hstep3 := visitStep_rootCheck_stop P
          (visitStep P { cfg with phase := VPhase.findRoot }).2 hspec.2.2
          (by rw [hspec.2.1]; exact hv)
        have hrun : runVisitAux P (0 + 3) cfg =
            some (([] : List Nat).map VEvent.finishState ++
                [VEvent.finishVisit],
              { (visitStep P { cfg with phase := VPhase.findRoot }).2 with
                vstate := P.vis.finishVisit
                  (visitStep P { cfg with phase := VPhase.findRoot }).2.vstate,
                phase := VPhase.finished }) := by
          rw [show (0 + 3 : Nat) = 2 + 1 from rfl,
            runVisitAux_succ P 2 cfg (by simp [hph]), hstep1]
          rw [show (2 : Nat) = 1 + 1 from rfl,
            runVisitAux_succ P 1 { cfg with phase := VPhase.findRoot }
              (by simp)]
          rw [show (1 : Nat) = 0 + 1 from rfl,
            runVisitAux_succ P 0
              (visitStep P { cfg with phase := VPhase.findRoot }).2
              (by rw [hspec.2.2]; simp), hstep3,
            runVisitAux_finished P 0 _ rfl]
          rw [hspec.1]
          rfl
        exact ⟨[], _, by rw [hgval]; rfl, hrun⟩
  | succ n ih =>
      intro cfg hinv hph hv hcard
      have hne : P.q.isEmpty cfg.queue = false := by
        cases hq : P.q.isEmpty cfg.queue
        · rfl
        · exfalso
          have h0 := (laws.isEmpty_iff _).mp hq
          rw [h0] at hcard
          simp at hcard
      obtain ⟨hev, hph', hv', hq', hg'⟩ :=
        visitStep_drain P laws cfg hinv hph hv hne
      have hinv' : VisitInv toMS (visitStep P cfg).2 :=
        visitInv_step P laws cfg hinv
      have hmem : P.q.head cfg.queue ∈ toMS cfg.queue := laws.head_mem _ hne
      have hcard' : Multiset.card (toMS (visitStep P cfg).2.queue) = n := by
        rw [hq', Multiset.card_erase_of_mem hmem, hcard]
        rfl
      obtain ⟨l, cfg', hl, hrun⟩ :=
        ih (visitStep P cfg).2 hinv' hph' hv' hcard'
      refine ⟨P.q.head cfg.queue :: l, cfg', ?_, ?_⟩
      · have hmemg : P.q.head cfg.queue ∈ (greySet cfg).val := by
          rw [← hinv.1]
          exact hmem
        rw [show ((P.q.head cfg.queue :: l : List Nat) : Multiset Nat) =
          P.q.head cfg.queue ::ₘ (l : Multiset Nat) from rfl, hl, hg',
          Finset.erase_val, Multiset.cons_erase hmemg]
      · rw [show n + 1 + 3 = (n + 3) + 1 from by omega,
          runVisitAux_succ P (n + 3) cfg (by simp [hph]), hrun, hev]
        rfl

/-- C8: if a bool-returning visitor callback returns false, every state
that is Grey at that moment receives exactly one subsequent FinishState
call, after which FinishVisit is called, and no InitState or arc
callbacks occur after the refusal.  Formally: a refusal leaves Visit in
an in-loop configuration with the visit flag false (the state marked
Grey by a refused InitState included); from every configuration
reachable from the initial one that is inside the queue loop with the
visit flag false, the queue holds exactly the Grey states (each once),
and the remaining run emits exactly one FinishState per Grey state
followed by FinishVisit and nothing else. -/
theorem c8_refusal_drains {α σ V : Type} (P : VisitParams α σ V)
    (toMS : σ → Multiset Nat) (laws : QueueLaws P.q toMS) (q0 : σ)
    (hq0 : toMS q0 = 0) (v1 : V) (st : Nat) (cfg : VCfg α σ V)
    (hreach : VReaches P (initVCfg P q0 v1 st) cfg)
    (hphase : cfg.phase = VPhase.inner) (hvisit : cfg.visit = false) :
    toMS cfg.queue = (greySet cfg).val ∧
    ∃ (l : List Nat) (cfg' : VCfg α σ V),
      (l : Multiset Nat) = (greySet cfg).val ∧
      runVisitAux P (Multiset.card (toMS cfg.queue) + 3) cfg =
        some (l.map VEvent.finishState ++ [VEvent.finishVisit], cfg') := by
  have hinv := visitInv_reaches P laws (visitInv_init P q0 hq0 v1 st) hreach
  exact ⟨hinv.1, visit_drain P laws _ cfg hinv hphase hvisit rfl⟩

/-- Witness for c8_refusal_drains: the two-state chain with the
refusing visitor over the FIFO queue, at the configuration reached one
step after the start (the refused InitState of the root has just
happened). -/
theorem c8_refusal_drains_witness :
    fifoToMS (stepC refuseParams (initVCfg refuseParams [] 0 0)).queue =
      (greySet (stepC refuseParams (initVCfg refuseParams [] 0 0))).val ∧
    ∃ (l : List Nat)
      (cfg' : VCfg (Arc Int) (List Nat) Nat),
      (l : Multiset Nat) =
        (greySet (stepC refuseParams (initVCfg refuseParams [] 0 0))).val ∧
      runVisitAux refuseParams
        (Multiset.card (fifoToMS
          (stepC refuseParams (initVCfg refuseParams [] 0 0)).queue) + 3)
        (stepC refuseParams (initVCfg refuseParams [] 0 0)) =
        some (l.map VEvent.finishState ++ [VEvent.finishVisit], cfg') :=
  c8_refusal_drains refuseParams fifoToMS fifoLaws [] rfl 0 0
    (stepC refuseParams (initVCfg refuseParams [] 0 0)) ⟨1, rfl⟩ rfl rfl

end OpenFst
